import Mathlib

/-!
Verification of the OpenPGP core of pedroalbanese/go-crypto.

The repository ships the openpgp test-suite (keys_test.go, read_test.go,
revoke_test.go) and callers; the library bodies (keys.go, read.go,
packet/...) are not in the source tree, so the definitions below are
modelled from the specification (spec.md) with behaviour pinned by the
tests.  Cryptographic primitives are out of scope for the core (spec section 1
and section 6): they are consumed as abstract capabilities, modelled here by the
CryptoOps record of verification oracles.
-/

namespace GoCrypto

/-- Substring test on character lists, used to state that an error message
contains a required fragment. -/
def hasPrefixChars : List Char → List Char → Bool
  | _, [] => true
  | [], _ :: _ => false
  | c :: cs, p :: ps => c = p && hasPrefixChars cs ps

/-- Returns true when pat occurs as a contiguous substring of s. -/
def hasSubChars (s pat : List Char) : Bool :=
  match s with
  | [] => pat.isEmpty
  | _ :: rest => hasPrefixChars s pat || hasSubChars rest pat

/-- String-level substring containment. -/
def strHasSub (s pat : String) : Bool := hasSubChars s.data pat.data

/-- Error taxonomy of the library (spec section 7): structural errors,
unsupported features, invalid argument, wrong key, unknown issuer,
expiry and arithmetically invalid signatures. -/
inductive PGPError where
  | structural (msg : String)
  | unsupported (msg : String)
  | invalidArgument (msg : String)
  | keyIncorrect
  | unknownIssuer
  | signatureExpired
  | signatureInvalid (msg : String)
deriving DecidableEq, Repr

/-- OpenPGP signature types used by the entity assembler and the
message reader (spec section 3, Signature V4). -/
inductive SigType where
  | genericCert
  | personaCert
  | casualCert
  | positiveCert
  | subkeyBinding
  | primaryKeyBinding
  | directKey
  | keyRevocation
  | subkeyRevocation
  | certRevocation
  | binary
  | text
deriving DecidableEq, Repr

/-- Public key material.  The key id is the low 64 bits of the
fingerprint for V4 keys (spec section 4.4); both are carried as data.  The
isSubkey flag mirrors the packet-level distinction the assembler uses
to decide whether a key packet opens a new entity. -/
structure PubKey where
  keyId : Nat
  fingerprint : List Nat
  isSubkey : Bool
deriving DecidableEq, Repr

/-- An embedded (cross-) signature carried inside a subkey-binding
signature: a primary-key-binding signature made by the subkey
(spec section 3, Subkey). -/
structure EmbSig where
  sigType : SigType
  hashId : Nat
  raw : Nat
deriving DecidableEq, Repr

/-- A V4 signature packet, with the fields the core logic branches on
(spec section 3): type, creation time, optional key expiry, key flags
(signing capability), optional embedded cross-signature, issuer key id
and hash algorithm id. -/
structure Sig where
  sigType : SigType
  creationTime : Nat
  keyLifetimeSecs : Option Nat
  flagSign : Bool
  embedded : Option EmbSig
  issuerKeyId : Option Nat
  hashId : Nat
deriving DecidableEq, Repr

/-- Modelled from the spec: the crypto capability interface the core
consumes (spec section 6).  The concrete public-key and hash primitives are
external collaborators, so signature verification and passphrase-based
private-key decryption are abstract oracles.  Each oracle is a pure
function, matching the determinism of the real primitives. -/
structure CryptoOps where
  verifyUserIdSig : PubKey → String → Sig → Bool
  verifyKeySig : PubKey → PubKey → Sig → Bool
  verifyCrossSig : PubKey → PubKey → EmbSig → Bool
  verifyRevocationSig : PubKey → Sig → Bool
  verifyDetached : PubKey → List Nat → Sig → Bool
  s2kDecrypt : List Nat → List Nat → Option (List Nat)

/-- The packets a key stream is made of (spec section 3, Packet). -/
inductive Packet where
  | pubKey (pk : PubKey)
  | userId (name : String)
  | sig (s : Sig)
  | marker
  | trust
deriving DecidableEq, Repr

/-- An identity: user-id name, chosen self-signature, third-party
certifications, optional certification-revocation (spec section 3). -/
structure Identity where
  name : String
  selfSignature : Sig
  signatures : List Sig
  revocation : Option Sig
deriving DecidableEq, Repr

/-- A subkey with its chosen binding signature and optional revocation
binding (spec section 3). -/
structure Subkey where
  publicKey : PubKey
  sig : Sig
  revocation : Option Sig
deriving DecidableEq, Repr

/-- A subkey that failed validation, preserved with its error
(spec section 3, Entity; keys_test.go TestMissingCrossSignature). -/
structure BadSubkey where
  subkey : PubKey
  err : PGPError
deriving DecidableEq, Repr

/-- An entity: primary key, identities, subkeys, key-level revocations,
unverified third-party revocations and bad subkeys (spec section 3). -/
structure Entity where
  primaryKey : PubKey
  identities : List Identity
  subkeys : List Subkey
  revocations : List Sig
  unverifiedRevocations : List Sig
  badSubkeys : List BadSubkey
deriving DecidableEq, Repr

/-- The four certification signature types that may serve as an
identity self-signature (spec section 4.3). -/
def isSelfCertType (t : SigType) : Bool :=
  match t with
  | SigType.genericCert => true
  | SigType.personaCert => true
  | SigType.casualCert => true
  | SigType.positiveCert => true
  | _ => false

/-- Modelled from the spec: a signature qualifies as a self-signature of
the given user id when it is a certification type, issued by the primary
key, and verifies against the primary key (spec section 4.3). -/
def isSelfCert (ops : CryptoOps) (primary : PubKey) (name : String) (s : Sig) : Bool :=
  isSelfCertType s.sigType && s.issuerKeyId == some primary.keyId &&
    ops.verifyUserIdSig primary name s

/-- Candidate-selection step: prefer the most recent creation time, and
on equal creation times prefer the signature appearing later in the
stream (spec section 4.2 tie-break policy, RFC 4880 5.2.3.3). -/
def pickLatest (acc : Option Sig) (s : Sig) : Option Sig :=
  match acc with
  | none => some s
  | some c => if c.creationTime ≤ s.creationTime then some s else some c

/-- Modelled from the spec: select the identity self-signature among the
signatures attached to a user id (spec section 4.3; keys_test.go
TestMultipleSigsPerUID). -/
def selectSelfSig (ops : CryptoOps) (primary : PubKey) (name : String)
    (sigs : List Sig) : Option Sig :=
  sigs.foldl (fun acc s => if isSelfCert ops primary name s then pickLatest acc s else acc) none

/-- Modelled from the spec: assemble one identity from the signatures
following its user-id packet.  A user id with no verifying
self-certification yields no identity (pinned by keys_test.go
TestRevokedUserID, where the revoked uid carries only a revocation and
is omitted); a verifying certification-revocation by the key holder is
recorded in the revocation field and the identity is kept (revoke_test.go
TestRevokedIdentityKey); third-party certifications are retained
unverified (spec section 4.3). -/
def buildIdentity (ops : CryptoOps) (primary : PubKey) (name : String)
    (sigs : List Sig) : Option Identity :=
  match selectSelfSig ops primary name sigs with
  | none => none
  | some ss =>
    some { name := name
           selfSignature := ss
           signatures := sigs.filter
             (fun s => isSelfCertType s.sigType && s.issuerKeyId != some primary.keyId)
           revocation := sigs.find?
             (fun s => s.sigType == SigType.certRevocation &&
               s.issuerKeyId == some primary.keyId && ops.verifyUserIdSig primary name s) }

/-- Modelled from the spec: validity check of one subkey-binding
signature.  The binding must verify against the primary key; for a
signing-capable subkey the binding must embed a primary-key-binding
cross-signature that verifies with the subkey as signer over
primary and subkey (spec section 4.3 and section 8, cross-sig necessity).  The
error strings follow keys_test.go (TestMissingCrossSignature expects
"signing subkey is missing cross-signature", TestInvalidCrossSignature
expects "subkey signature invalid") and spec section 8 (both contain
"cross-signature"). -/
def checkBindingSig (ops : CryptoOps) (primary sub : PubKey) (s : Sig) : Option PGPError :=
  if ops.verifyKeySig primary sub s then
    if s.flagSign then
      match s.embedded with
      | none =>
        some (PGPError.structural "subkey signature invalid: signing subkey is missing cross-signature")
      | some emb =>
        if ops.verifyCrossSig primary sub emb then none
        else some (PGPError.structural "subkey signature invalid: error while validating cross-signature")
    else none
  else some (PGPError.structural "subkey signature invalid")

/-- Accumulator for folding over the signatures that follow a subkey
packet: chosen binding signature, first revocation, last error seen. -/
structure SubkeyAcc where
  sig : Option Sig
  revocation : Option Sig
  lastErr : Option PGPError
deriving DecidableEq, Repr

/-- Modelled from the spec: process one signature following a subkey
packet.  Valid binding signatures compete by recency (ties to the later
one in the stream, spec section 4.2); the first verifying subkey-revocation
is kept; anything else only updates the recorded error (spec section 4.3). -/
def subkeyStep (ops : CryptoOps) (primary sub : PubKey) (acc : SubkeyAcc) (s : Sig) : SubkeyAcc :=
  if s.sigType = SigType.subkeyBinding then
    match checkBindingSig ops primary sub s with
    | some e => { acc with lastErr := some e }
    | none =>
      match acc.sig with
      | none => { acc with sig := some s }
      | some c => if c.creationTime ≤ s.creationTime then { acc with sig := some s } else acc
  else if s.sigType = SigType.subkeyRevocation then
    if ops.verifyKeySig primary sub s then
      match acc.revocation with
      | none => { acc with revocation := some s }
      | some _ => acc
    else { acc with lastErr := some (PGPError.structural "subkey signature invalid") }
  else { acc with lastErr := some (PGPError.structural "subkey signature with wrong type") }

/-- Modelled from the spec: assemble one subkey from the signatures
following it.  With a valid binding signature the subkey is good;
otherwise it is preserved as a bad subkey together with the error
(spec section 7: parse-time errors on a subkey are recovered locally). -/
def buildSubkey (ops : CryptoOps) (primary : PubKey) (sub : PubKey)
    (sigs : List Sig) : Sum BadSubkey Subkey :=
  match sigs.foldl (subkeyStep ops primary sub) ⟨none, none, none⟩ with
  | { sig := some s, revocation := rev, lastErr := _ } =>
    Sum.inr { publicKey := sub, sig := s, revocation := rev }
  | { sig := none, revocation := _, lastErr := le } =>
    Sum.inl { subkey := sub
              err := le.getD
                (PGPError.structural "subkey was not signed; expected a binding signature") }

/-- Takes the maximal run of signature packets at the head of the
stream: the signatures that attach to the current target
(spec section 4.3: signatures attach to the current user id or subkey until
another user id or subkey packet intervenes). -/
def takeSigs : List Packet → List Sig × List Packet
  | Packet.sig s :: rest =>
    let r := takeSigs rest
    (s :: r.1, r.2)
  | ps => ([], ps)

theorem takeSigs_length_le : ∀ ps : List Packet, (takeSigs ps).2.length ≤ ps.length := by
  intro ps
  induction ps with
  | nil => simp [takeSigs]
  | cons p rest ih =>
    cases p <;> simp [takeSigs] <;> omega

/-- Modelled from the spec: group the body of one entity (everything
after its primary-key packet) into per-user-id signature segments,
per-subkey signature segments, and key-level signatures.  Key-revocation
signatures are routed to the key level wherever they appear; marker and
trust packets are skipped (spec section 4.3). -/
def groupPackets : List Packet →
    List (String × List Sig) × List (PubKey × List Sig) × List Sig
  | [] => ([], [], [])
  | Packet.marker :: rest => groupPackets rest
  | Packet.trust :: rest => groupPackets rest
  | Packet.sig s :: rest =>
    let g := groupPackets rest
    (g.1, g.2.1, s :: g.2.2)
  | Packet.userId n :: rest =>
    let t := takeSigs rest
    let g := groupPackets t.2
    ((n, t.1.filter (fun s => s.sigType != SigType.keyRevocation)) :: g.1, g.2.1,
      t.1.filter (fun s => s.sigType == SigType.keyRevocation) ++ g.2.2)
  | Packet.pubKey pk :: rest =>
    let t := takeSigs rest
    let g := groupPackets t.2
    (g.1, (pk, t.1.filter (fun s => s.sigType != SigType.keyRevocation)) :: g.2.1,
      t.1.filter (fun s => s.sigType == SigType.keyRevocation) ++ g.2.2)
termination_by ps => ps.length
decreasing_by
  all_goals simp
  all_goals have := takeSigs_length_le rest
  all_goals omega

/-- Modelled from the spec: classify key-level revocation signatures.
Key-revocations by the key holder that verify go to Revocations;
third-party revocations are held for later verification against the
designated revoker key (spec section 4.3; revoke_test.go
TestDesignatedRevoker). -/
def classifyKeyLevel (ops : CryptoOps) (primary : PubKey) (sigs : List Sig) :
    List Sig × List Sig :=
  (sigs.filter (fun s => s.sigType == SigType.keyRevocation &&
      s.issuerKeyId == some primary.keyId && ops.verifyRevocationSig primary s),
   sigs.filter (fun s => s.sigType == SigType.keyRevocation &&
      s.issuerKeyId != some primary.keyId))

/-- Keeps the successfully assembled subkeys of a list of results. -/
def goodSubkeys (rs : List (Sum BadSubkey Subkey)) : List Subkey :=
  rs.filterMap (fun r => match r with | Sum.inr sk => some sk | Sum.inl _ => none)

/-- Keeps the failed subkeys of a list of results. -/
def badSubkeysOf (rs : List (Sum BadSubkey Subkey)) : List BadSubkey :=
  rs.filterMap (fun r => match r with | Sum.inr _ => none | Sum.inl b => some b)

/-- Modelled from the spec: fold the grouped body of an entity into an
Entity value.  An entity with zero identities at end of assembly is
rejected with a structural error (spec section 4.3; keys_test.go
TestKeyWithoutUID). -/
def makeEntity (ops : CryptoOps) (primary : PubKey) (body : List Packet) :
    Except PGPError Entity :=
  if ((groupPackets body).1.filterMap
        (fun p => buildIdentity ops primary p.1 p.2)).isEmpty then
    Except.error (PGPError.structural "entity without any identities")
  else
    Except.ok { primaryKey := primary
                identities := (groupPackets body).1.filterMap
                  (fun p => buildIdentity ops primary p.1 p.2)
                subkeys := goodSubkeys ((groupPackets body).2.1.map
                  (fun p => buildSubkey ops primary p.1 p.2))
                revocations := (classifyKeyLevel ops primary (groupPackets body).2.2).1
                unverifiedRevocations :=
                  (classifyKeyLevel ops primary (groupPackets body).2.2).2
                badSubkeys := badSubkeysOf ((groupPackets body).2.1.map
                  (fun p => buildSubkey ops primary p.1 p.2)) }

/-- Splits the stream at the next primary (non-subkey) key packet: the
first component is the body of the current entity (spec section 3,
lifecycle: an entity extends until the next primary-key packet or
EOF). -/
def splitEntityBody : List Packet → List Packet × List Packet
  | [] => ([], [])
  | Packet.pubKey pk :: rest =>
    if pk.isSubkey then
      let r := splitEntityBody rest
      (Packet.pubKey pk :: r.1, r.2)
    else ([], Packet.pubKey pk :: rest)
  | Packet.userId n :: rest =>
    let r := splitEntityBody rest
    (Packet.userId n :: r.1, r.2)
  | Packet.sig s :: rest =>
    let r := splitEntityBody rest
    (Packet.sig s :: r.1, r.2)
  | Packet.marker :: rest =>
    let r := splitEntityBody rest
    (Packet.marker :: r.1, r.2)
  | Packet.trust :: rest =>
    let r := splitEntityBody rest
    (Packet.trust :: r.1, r.2)

theorem splitEntityBody_length_le :
    ∀ ps : List Packet, (splitEntityBody ps).2.length ≤ ps.length := by
  intro ps
  induction ps with
  | nil => simp [splitEntityBody]
  | cons p rest ih =>
    cases p with
    | pubKey pk =>
      by_cases h : pk.isSubkey = true <;> simp [splitEntityBody, h] <;> omega
    | userId n => simp [splitEntityBody]; omega
    | sig s => simp [splitEntityBody]; omega
    | marker => simp [splitEntityBody]; omega
    | trust => simp [splitEntityBody]; omega

/-- Modelled from the spec: read a sequence of entities from a packet
stream.  Leading marker and trust packets are skipped; each primary key
packet begins a new entity; a clean end of stream yields the entities
collected so far, so an empty stream yields an empty keyring with no
error (spec section 4.3; read_test.go testReadMessageError builds its empty
keyring this way). -/
def readKeyRing (ops : CryptoOps) : List Packet → Except PGPError (List Entity)
  | [] => Except.ok []
  | Packet.marker :: rest => readKeyRing ops rest
  | Packet.trust :: rest => readKeyRing ops rest
  | Packet.pubKey pk :: rest =>
    if pk.isSubkey then
      Except.error (PGPError.structural "first packet was not a public/private key")
    else
      match makeEntity ops pk (splitEntityBody rest).1 with
      | Except.error e => Except.error e
      | Except.ok ent =>
        match readKeyRing ops (splitEntityBody rest).2 with
        | Except.error e => Except.error e
        | Except.ok es => Except.ok (ent :: es)
  | Packet.userId _ :: _ =>
    Except.error (PGPError.structural "first packet was not a public/private key")
  | Packet.sig _ :: _ =>
    Except.error (PGPError.structural "first packet was not a public/private key")
termination_by ps => ps.length
decreasing_by
  all_goals simp
  all_goals try omega
  have := splitEntityBody_length_le rest
  omega

/-- What the message reader finds when it opens the next nesting level
of a message: another compressed (or encrypted) container, the literal
data, or an unexpected packet (spec section 4.5). -/
inductive LayerKind where
  | container
  | literalData (data : List Nat) (time : Nat)
  | garbage
deriving DecidableEq, Repr

/-- Modelled from the spec: the maximum number of reader layers held at
once while reading a single message; the recursion cap defending
against compression quines (spec section 4.1, recommended constant 32). -/
def maxReaders : Nat := 32

/-- Modelled from the spec: descend through the nested containers of a
message, keeping a counter of the layers opened so far.  Opening one
more layer past the cap fails with the structural error "too many
layers of packets" (spec section 4.1; read_test.go TestCampbellQuine). -/
def readLayersFrom (layers : Nat → LayerKind) (depth : Nat) :
    Except PGPError (List Nat × Nat) :=
  match layers depth with
  | LayerKind.literalData d t => Except.ok (d, t)
  | LayerKind.garbage => Except.error (PGPError.structural "unexpected packet in message")
  | LayerKind.container =>
    if h : maxReaders ≤ depth + 1 then
      Except.error (PGPError.structural "too many layers of packets")
    else readLayersFrom layers (depth + 1)
termination_by maxReaders - depth
decreasing_by simp at h; omega

/-- Opens a message described by its layer structure, starting at the
outermost layer. -/
def readMessageLayers (layers : Nat → LayerKind) : Except PGPError (List Nat × Nat) :=
  readLayersFrom layers 0

/-- Modelled from the spec: the campbell quine
a0b001000300fcffa0b001000d00f2ff... is a compressed packet that expands
into itself, so every layer the reader opens is another compressed
container and a literal is never reached (read_test.go
TestCampbellQuine). -/
def campbellQuineLayers : Nat → LayerKind := fun _ => LayerKind.container

/-- A one-pass-signature packet: declared signer key id and hash
algorithm (spec section 3). -/
structure OnePassSig where
  keyId : Nat
  hashId : Nat
deriving DecidableEq, Repr

/-- A one-pass-signed message: the one-pass-signature packets preceding
the literal data, the literal body, and the trailing signature packets
(spec section 4.5). -/
structure SignedMessage where
  onePass : List OnePassSig
  literal : List Nat
  trailingSigs : List Sig
deriving DecidableEq, Repr

/-- The result of opening a message, restricted to the fields the
present claims are about (spec section 3, MessageDetails). -/
structure MessageDetails where
  isSigned : Bool
  multiSig : Bool
  signedByKeyId : Nat
  signedBy : Option PubKey
  body : List Nat
  signatureError : Option PGPError
deriving DecidableEq, Repr

/-- All keys of a keyring matching a key id: primary keys and subkeys
whose low-64-bit key id matches (spec section 4.4). -/
def keysById (kring : List Entity) (id : Nat) : List PubKey :=
  kring.foldr (fun e acc =>
    (if e.primaryKey.keyId = id then [e.primaryKey] else []) ++
      (e.subkeys.filter (fun sk => sk.publicKey.keyId = id)).map Subkey.publicKey ++ acc) []

/-- Modelled from the spec: after the literal body has been drained, try
the trailing signatures in order; for each, look up the issuer in the
keyring and return the first key that verifies the signature over the
body (spec section 4.5, multi-signature messages). -/
def findVerifier (ops : CryptoOps) (kring : List Entity) (body : List Nat) :
    List Sig → Option PubKey
  | [] => none
  | s :: rest =>
    match s.issuerKeyId with
    | none => findVerifier ops kring body rest
    | some id =>
      match (keysById kring id).find? (fun k => ops.verifyDetached k body s) with
      | some k => some k
      | none => findVerifier ops kring body rest

/-- Modelled from the spec: open a one-pass-signed message against a
keyring and finalize verification once the body is drained.  MultiSig
is set when several one-pass-signature packets precede the literal;
verification succeeds as long as at least one trailing signature
verifies with a key of the keyring, and a message whose signers are all
absent from the keyring opens with SignatureError set to
ErrUnknownIssuer (spec section 4.5; TestMultisig). -/
def readSignedMessage (ops : CryptoOps) (kring : List Entity) (m : SignedMessage) :
    MessageDetails :=
  let verifier := findVerifier ops kring m.literal m.trailingSigs
  { isSigned := !m.onePass.isEmpty
    multiSig := 1 < m.onePass.length
    signedByKeyId := ((m.onePass.head?).map OnePassSig.keyId).getD 0
    signedBy := verifier
    body := m.literal
    signatureError := match verifier with
      | some _ => none
      | none => some PGPError.unknownIssuer }

/-- Hash algorithm ids this build recognizes at parse time
(spec section 6: MD5, SHA-1, RIPEMD160, SHA-256, SHA-384, SHA-512,
SHA-224 have assigned ids; anything else is an unknown hash such as id
153 in read_test.go TestUnknownHashFunction). -/
def hashKnown (h : Nat) : Bool := h = 1 || h = 2 || h = 3 || h = 8 || h = 9 || h = 10 || h = 11

/-- Hash algorithms actually compiled into this build (spec section 6: at
least SHA-1, SHA-224, SHA-256, SHA-384, SHA-512; RIPEMD160, id 3, is
not compiled in per read_test.go TestMissingHashFunction). -/
def hashAvailable (h : Nat) : Bool := h = 2 || h = 8 || h = 9 || h = 10 || h = 11

/-- All (entity, key) pairs of a keyring usable for signing under a key
id: the primary key, or subkeys whose binding signature grants the
signing flag (spec section 4.4, keys_by_id_usage). -/
def signingKeysById (kring : List Entity) (id : Nat) : List (Entity × PubKey) :=
  kring.foldr (fun e acc =>
    (if e.primaryKey.keyId = id then [(e, e.primaryKey)] else []) ++
      ((e.subkeys.filter (fun sk => sk.publicKey.keyId = id && sk.sig.flagSign)).map
        (fun sk => (e, sk.publicKey))) ++ acc) []

/-- Modelled from the spec: check a detached signature over the signed
bytes.  Signature packets are tried in order; a signature whose hash
algorithm id is unknown fails with an unsupported-hash error; one whose
hash is known but not compiled in is skipped, as is one whose issuer is
absent from the keyring; when a usable candidate is found it is
verified, a valid key with an arithmetically bad signature yielding an
invalid-signature error, never ErrUnknownIssuer; exhausting the packets
yields ErrUnknownIssuer (spec section 4.5 and section 7; read_test.go
TestMissingHashFunction, TestMultipleSignaturePacketsDSA,
TestDetachedSignature). -/
def checkDetachedSignature (ops : CryptoOps) (kring : List Entity) (signed : List Nat) :
    List Sig → Except PGPError Entity
  | [] => Except.error PGPError.unknownIssuer
  | s :: rest =>
    if hashKnown s.hashId then
      match s.issuerKeyId with
      | none => Except.error (PGPError.structural "signature doesn't have an issuer")
      | some id =>
        if hashAvailable s.hashId then
          match signingKeysById kring id with
          | [] => checkDetachedSignature ops kring signed rest
          | ks =>
            match ks.find? (fun p => ops.verifyDetached p.2 signed s) with
            | some p => Except.ok p.1
            | none => Except.error (PGPError.signatureInvalid "hash tag doesn't match")
        else checkDetachedSignature ops kring signed rest
    else Except.error (PGPError.unsupported "hash function not known")

/-- Private key material: public part, encryption state, the encrypted
blob, and the decrypted material once unlocked (spec section 3 and section 5). -/
structure PrivateKey where
  pub : PubKey
  encrypted : Bool
  ciphertext : List Nat
  material : Option (List Nat)
deriving DecidableEq, Repr

/-- Modelled from the spec: unlock a private key with a passphrase.  A
key that is already decrypted returns Ok immediately without touching
the key material, making unlock idempotent (spec section 5 and section 8,
idempotent unlock; read_test.go openPrivateKey); on an encrypted key
the S2K-derived decryption either succeeds and clears the encrypted
flag or fails with ErrKeyIncorrect leaving the key unchanged. -/
def decryptPrivateKey (ops : CryptoOps) (pk : PrivateKey) (pass : List Nat) :
    PrivateKey × Option PGPError :=
  if pk.encrypted then
    match ops.s2kDecrypt pk.ciphertext pass with
    | some m => ({ pk with encrypted := false, material := some m }, none)
    | none => (pk, some PGPError.keyIncorrect)
  else (pk, none)

/-- Serialization of one identity: user-id packet, chosen
self-signature, third-party certifications, optional revocation
(spec section 4.6). -/
def serializeIdentity (id : Identity) : List Packet :=
  Packet.userId id.name :: Packet.sig id.selfSignature ::
    (id.signatures.map Packet.sig ++
      (match id.revocation with
       | some r => [Packet.sig r]
       | none => []))

/-- Serialization of one subkey: key packet, binding signature, optional
revocation (spec section 4.6). -/
def serializeSubkey (sk : Subkey) : List Packet :=
  Packet.pubKey sk.publicKey :: Packet.sig sk.sig ::
    (match sk.revocation with
     | some r => [Packet.sig r]
     | none => [])

/-- Modelled from the spec: serialize an entity in the canonical packet
order Primary, Identity and its signatures in order, then each Subkey
with its binding signature and revocation (spec section 4.6). -/
def serializeEntity (e : Entity) : List Packet :=
  Packet.pubKey e.primaryKey ::
    ((e.identities.map serializeIdentity).flatten ++ (e.subkeys.map serializeSubkey).flatten)

/-- A crypto oracle under which every verification succeeds, used to
instantiate theorems on concrete packet streams. -/
def opsAll : CryptoOps :=
  { verifyUserIdSig := fun _ _ _ => true
    verifyKeySig := fun _ _ _ => true
    verifyCrossSig := fun _ _ _ => true
    verifyRevocationSig := fun _ _ => true
    verifyDetached := fun _ _ _ => true
    s2kDecrypt := fun _ p => if p = [1] then some [9] else none }

/-- A concrete primary key for instantiating theorems. -/
def pkPrimary : PubKey := { keyId := 1, fingerprint := [1, 1], isSubkey := false }

/-- A concrete subkey for instantiating theorems. -/
def pkSub : PubKey := { keyId := 2, fingerprint := [2, 2], isSubkey := true }

/-- A concrete positive certification by pkPrimary. -/
def sigSelfCert : Sig :=
  { sigType := SigType.positiveCert, creationTime := 10, keyLifetimeSecs := none
    flagSign := false, embedded := none, issuerKeyId := some 1, hashId := 2 }

/-- A concrete certification revocation by pkPrimary. -/
def sigCertRev : Sig :=
  { sigType := SigType.certRevocation, creationTime := 11, keyLifetimeSecs := none
    flagSign := false, embedded := none, issuerKeyId := some 1, hashId := 2 }

/-- If decryption reports no error, the resulting key is unlocked. -/
theorem decrypt_ok_unlocked (ops : CryptoOps) (pk : PrivateKey) (pass : List Nat)
    (h : (decryptPrivateKey ops pk pass).2 = none) :
    (decryptPrivateKey ops pk pass).1.encrypted = false := by
  by_cases he : pk.encrypted = true
  · unfold decryptPrivateKey at h ⊢
    cases hm : ops.s2kDecrypt pk.ciphertext pass with
    | none => simp [he, hm] at h
    | some m => simp [he, hm]
  · have he' : pk.encrypted = false := by
      cases hb : pk.encrypted
      · rfl
      · exact absurd hb he
    unfold decryptPrivateKey
    simp [he']

/-- An unlocked key is returned unchanged with no error by any further
decryption attempt. -/
theorem decrypt_unlocked_noop (ops : CryptoOps) (pk : PrivateKey) (pass : List Nat)
    (h : pk.encrypted = false) :
    decryptPrivateKey ops pk pass = (pk, none) := by
  unfold decryptPrivateKey
  simp [h]

/-- C9: private-key unlock is idempotent.  Once a key has been
successfully unlocked, a further decrypt with a wrong passphrase
returns Ok and leaves the in-memory key material untouched, and a
further decrypt with the right passphrase also returns Ok. -/
theorem unlock_idempotent (ops : CryptoOps) (pk : PrivateKey) (right wrong : List Nat)
    (h : (decryptPrivateKey ops pk right).2 = none) :
    decryptPrivateKey ops (decryptPrivateKey ops pk right).1 wrong
        = ((decryptPrivateKey ops pk right).1, none) ∧
      decryptPrivateKey ops (decryptPrivateKey ops pk right).1 right
        = ((decryptPrivateKey ops pk right).1, none) := by
  have hu := decrypt_ok_unlocked ops pk right h
  exact ⟨decrypt_unlocked_noop ops _ wrong hu, decrypt_unlocked_noop ops _ right hu⟩

/-- Witness for C9 at a concrete locked key and passphrases. -/
theorem unlock_idempotent_app :
    decryptPrivateKey opsAll
        (decryptPrivateKey opsAll
          { pub := pkPrimary, encrypted := true, ciphertext := [5], material := none } [1]).1 [2]
      = ((decryptPrivateKey opsAll
          { pub := pkPrimary, encrypted := true, ciphertext := [5], material := none } [1]).1,
          none) := by
  exact (unlock_idempotent opsAll
    { pub := pkPrimary, encrypted := true, ciphertext := [5], material := none } [1] [2]
    (by simp [decryptPrivateKey, opsAll])).1

/-- C10: reading a keyring from an empty packet stream succeeds with an
empty entity list and no error, and the empty keyring is usable as the
keyring argument of the message reader: key lookup simply finds
nothing, and opening a message still yields its literal body. -/
theorem readKeyRing_empty (ops : CryptoOps) :
    readKeyRing ops [] = Except.ok [] ∧
      (∀ id : Nat, keysById [] id = []) ∧
      (∀ m : SignedMessage, (readSignedMessage ops [] m).body = m.literal) := by
  refine ⟨by simp [readKeyRing], fun id => rfl, fun m => rfl⟩

/-- A successful descent finds the literal at a bounded depth, with
every layer above it being a container. -/
theorem readLayersFrom_ok_bound (layers : Nat → LayerKind) (d : Nat)
    (data : List Nat) (t : Nat) (hd : d ≤ maxReaders)
    (h : readLayersFrom layers d = Except.ok (data, t)) :
    ∃ k, d ≤ k ∧ k ≤ maxReaders ∧ layers k = LayerKind.literalData data t ∧
      ∀ j, d ≤ j → j < k → layers j = LayerKind.container := by
  suffices key : ∀ n d, maxReaders + 1 - d ≤ n → d ≤ maxReaders →
      readLayersFrom layers d = Except.ok (data, t) →
      ∃ k, d ≤ k ∧ k ≤ maxReaders ∧ layers k = LayerKind.literalData data t ∧
        ∀ j, d ≤ j → j < k → layers j = LayerKind.container by
    exact key (maxReaders + 1) d (by omega) hd h
  intro n
  induction n with
  | zero => intro d hn hd _; omega
  | succ n ih =>
    intro d _ hd h
    unfold readLayersFrom at h
    cases hl : layers d with
    | literalData d2 t2 =>
      rw [hl] at h
      simp only [Except.ok.injEq, Prod.mk.injEq] at h
      refine ⟨d, le_refl d, hd, ?_, ?_⟩
      · rw [hl, h.1, h.2]
      · intro j hj1 hj2; omega
    | garbage => rw [hl] at h; exact Except.noConfusion h
    | container =>
      rw [hl] at h
      simp only at h
      split at h
      · exact Except.noConfusion h
      · rename_i hcap
        obtain ⟨k, hk1, hk2, hk3, hk4⟩ := ih (d + 1) (by omega) (by omega) h
        refine ⟨k, by omega, hk2, hk3, ?_⟩
        intro j hj1 hj2
        rcases Nat.eq_or_lt_of_le hj1 with he | hlt
        · rw [← he]; exact hl
        · exact hk4 j hlt hj2

/-- C3: the compressed-quine message, whose every layer opens into
another compressed container, makes the reader fail with the structural
error "too many layers of packets" and yield no message; and in
general the number of nested container layers the reader descends
through on any successful read is bounded by the constant maxReaders
(32), every deeper nesting being cut off with that error. -/
theorem campbell_quine_layer_cap :
    readMessageLayers campbellQuineLayers
        = Except.error (PGPError.structural "too many layers of packets") ∧
      strHasSub "too many layers of packets" "too many layers of packets" = true ∧
      ∀ (layers : Nat → LayerKind) (data : List Nat) (t : Nat),
        readMessageLayers layers = Except.ok (data, t) →
          ∃ k, k ≤ maxReaders ∧ layers k = LayerKind.literalData data t ∧
            ∀ j, j < k → layers j = LayerKind.container := by
  refine ⟨?_, by decide, ?_⟩
  · unfold readMessageLayers
    simp [readLayersFrom, campbellQuineLayers, maxReaders]
  · intro layers data t h
    obtain ⟨k, _, hk2, hk3, hk4⟩ :=
      readLayersFrom_ok_bound layers 0 data t (Nat.zero_le maxReaders) h
    exact ⟨k, hk2, hk3, fun j hj => hk4 j (Nat.zero_le j) hj⟩

/-- Witness for C3 at a concrete one-layer message: the general bound of
the theorem applied to a message whose outermost layer is already the
literal. -/
theorem campbell_quine_layer_cap_app :
    ∃ k, k ≤ maxReaders ∧
      (fun _ => LayerKind.literalData [7] 5) k = LayerKind.literalData [7] 5 ∧
      ∀ j, j < k → (fun _ => LayerKind.literalData [7] 5) j = LayerKind.container := by
  exact campbell_quine_layer_cap.2.2 (fun _ => LayerKind.literalData [7] 5) [7] 5
    (by unfold readMessageLayers; simp [readLayersFrom])

/-- A hash algorithm compiled into the build is in particular a known
hash algorithm id. -/
theorem hashAvailable_known (h : Nat) (ha : hashAvailable h = true) : hashKnown h = true := by
  unfold hashAvailable at ha
  unfold hashKnown
  simp only [Bool.or_eq_true, decide_eq_true_eq] at ha ⊢
  omega

/-- Signature packets with a known but unavailable hash (and a named
issuer) are skipped by the detached-signature check. -/
theorem checkDetached_skips_unavailable (ops : CryptoOps) (kring : List Entity)
    (signed : List Nat) (pre rest : List Sig)
    (hpre : ∀ b ∈ pre, hashKnown b.hashId = true ∧ hashAvailable b.hashId = false ∧
      b.issuerKeyId ≠ none) :
    checkDetachedSignature ops kring signed (pre ++ rest)
      = checkDetachedSignature ops kring signed rest := by
  induction pre with
  | nil => rfl
  | cons b pre ih =>
    obtain ⟨hk, ha, hi⟩ := hpre b (List.mem_cons_self b pre)
    cases hio : b.issuerKeyId with
    | none => exact absurd hio hi
    | some id =>
      have step : checkDetachedSignature ops kring signed (b :: (pre ++ rest))
          = checkDetachedSignature ops kring signed (pre ++ rest) := by
        conv_lhs => rw [checkDetachedSignature.eq_def]
        simp [hk, hio, ha]
      rw [List.cons_append, step]
      exact ih (fun s hs => hpre s (List.mem_cons_of_mem b hs))

/-- C6: a detached-signature check whose every signature packet uses a
hash algorithm that is known but not compiled into this build results
in ErrUnknownIssuer; and when such packets are followed by a signature
with a supported hash whose issuer resolves to a signing key of the
keyring that verifies it, the check succeeds and returns the matching
signer entity. -/
theorem detached_unavailable_hash_policy (ops : CryptoOps) (kring : List Entity)
    (signed : List Nat) (pre : List Sig)
    (hpre : ∀ b ∈ pre, hashKnown b.hashId = true ∧ hashAvailable b.hashId = false ∧
      b.issuerKeyId ≠ none) :
    (checkDetachedSignature ops kring signed pre = Except.error PGPError.unknownIssuer) ∧
      ∀ (s : Sig) (rest : List Sig) (id : Nat) (e : Entity) (k : PubKey),
        hashAvailable s.hashId = true → s.issuerKeyId = some id →
        signingKeysById kring id = [(e, k)] →
        ops.verifyDetached k signed s = true →
        checkDetachedSignature ops kring signed (pre ++ s :: rest) = Except.ok e := by
  constructor
  · have := checkDetached_skips_unavailable ops kring signed pre [] hpre
    rw [List.append_nil] at this
    rw [this]
    rfl
  · intro s rest id e k ha hi hk hv
    rw [checkDetached_skips_unavailable ops kring signed pre (s :: rest) hpre]
    unfold checkDetachedSignature
    rw [hashAvailable_known s.hashId ha, hi, ha]
    simp only [hk]
    simp [hv]

/-- Witness for C6: a RIPEMD160 (hash id 3) signature packet with an
issuer is skipped, so alone it yields ErrUnknownIssuer. -/
theorem detached_unavailable_hash_policy_app :
    checkDetachedSignature opsAll [] [7]
        [{ sigType := SigType.binary, creationTime := 1, keyLifetimeSecs := none
           flagSign := false, embedded := none, issuerKeyId := some 1, hashId := 3 }]
      = Except.error PGPError.unknownIssuer := by
  exact (detached_unavailable_hash_policy opsAll [] [7]
    [{ sigType := SigType.binary, creationTime := 1, keyLifetimeSecs := none
       flagSign := false, embedded := none, issuerKeyId := some 1, hashId := 3 }]
    (by intro b hb; simp at hb; subst hb; refine ⟨by decide, by decide, by simp⟩)).1

/-- C7: checking a detached signature over tampered cleartext while the
signer's key is present in the keyring fails, and the failure is an
invalid-signature error, never ErrUnknownIssuer. -/
theorem detached_bad_signature_known_key (ops : CryptoOps) (kring : List Entity)
    (signed : List Nat) (s : Sig) (rest : List Sig) (id : Nat)
    (ha : hashAvailable s.hashId = true) (hi : s.issuerKeyId = some id)
    (hne : signingKeysById kring id ≠ [])
    (hfail : ∀ p ∈ signingKeysById kring id, ops.verifyDetached p.2 signed s = false) :
    ∃ err, checkDetachedSignature ops kring signed (s :: rest) = Except.error err ∧
      err ≠ PGPError.unknownIssuer := by
  refine ⟨PGPError.signatureInvalid "hash tag doesn't match", ?_, by simp⟩
  unfold checkDetachedSignature
  rw [hashAvailable_known s.hashId ha, hi, ha]
  simp only
  have hfind : (signingKeysById kring id).find? (fun p => ops.verifyDetached p.2 signed s)
      = none := by
    apply List.find?_eq_none.2
    intro p hp
    simp [hfail p hp]
  cases hks : signingKeysById kring id with
  | nil => exact absurd hks hne
  | cons p ps =>
    rw [hks] at hfind
    simp only [hfind]
    simp

/-- A crypto oracle under which every verification fails. -/
def opsNone : CryptoOps :=
  { verifyUserIdSig := fun _ _ _ => false
    verifyKeySig := fun _ _ _ => false
    verifyCrossSig := fun _ _ _ => false
    verifyRevocationSig := fun _ _ => false
    verifyDetached := fun _ _ _ => false
    s2kDecrypt := fun _ _ => none }

/-- A concrete entity built directly from pkPrimary, used to populate
concrete keyrings in witnesses. -/
def entPrimary : Entity :=
  { primaryKey := pkPrimary
    identities := [{ name := "a", selfSignature := sigSelfCert, signatures := []
                     revocation := none }]
    subkeys := []
    revocations := []
    unverifiedRevocations := []
    badSubkeys := [] }

/-- Witness for C7: a keyring knowing the issuer, an oracle rejecting
the signature over the tampered text. -/
theorem detached_bad_signature_known_key_app :
    ∃ err, checkDetachedSignature opsNone [entPrimary] [7, 8]
        [{ sigType := SigType.binary, creationTime := 1, keyLifetimeSecs := none
           flagSign := false, embedded := none, issuerKeyId := some 1, hashId := 2 }]
        = Except.error err ∧
      err ≠ PGPError.unknownIssuer := by
  exact detached_bad_signature_known_key opsNone [entPrimary] [7, 8]
    { sigType := SigType.binary, creationTime := 1, keyLifetimeSecs := none
      flagSign := false, embedded := none, issuerKeyId := some 1, hashId := 2 }
    [] 1 (by decide) rfl
    (by simp [signingKeysById, entPrimary, pkPrimary])
    (by intro p _; rfl)

/-- If the verifier search comes back empty, then no key of the keyring
matching the issuer of any trailing signature verifies it. -/
theorem findVerifier_none_sound (ops : CryptoOps) (kring : List Entity) (body : List Nat)
    (sigs : List Sig) (h : findVerifier ops kring body sigs = none) :
    ∀ s ∈ sigs, ∀ id, s.issuerKeyId = some id →
      ∀ k ∈ keysById kring id, ops.verifyDetached k body s = false := by
  induction sigs with
  | nil => intro s hs; simp at hs
  | cons s0 rest ih =>
    intro s hs id hid k hk
    unfold findVerifier at h
    split at h
    · rename_i hio
      rcases List.mem_cons.1 hs with he | hm
      · subst he; rw [hio] at hid; exact Option.noConfusion hid
      · exact ih h s hm id hid k hk
    · rename_i id0 hio
      split at h
      · exact Option.noConfusion h
      · rename_i hf
        rcases List.mem_cons.1 hs with he | hm
        · subst he
          rw [hio] at hid
          cases hid
          have := List.find?_eq_none.1 hf k hk
          simpa using this
        · exact ih h s hm id hid k hk

/-- A found verifier is a key of the keyring matching the issuer of one
of the trailing signatures, and it verifies that signature. -/
theorem findVerifier_some_sound (ops : CryptoOps) (kring : List Entity) (body : List Nat)
    (sigs : List Sig) (k : PubKey) (h : findVerifier ops kring body sigs = some k) :
    ∃ s ∈ sigs, ∃ id, s.issuerKeyId = some id ∧ k ∈ keysById kring id ∧
      ops.verifyDetached k body s = true := by
  induction sigs with
  | nil => simp [findVerifier] at h
  | cons s0 rest ih =>
    unfold findVerifier at h
    split at h
    · rename_i hio
      obtain ⟨s, hs, rest'⟩ := ih h
      exact ⟨s, List.mem_cons_of_mem s0 hs, rest'⟩
    · rename_i id0 hio
      split at h
      · rename_i k0 hf
        have hkk := Option.some.inj h
        subst hkk
        refine ⟨s0, List.mem_cons_self s0 rest, id0, hio,
          List.mem_of_find?_eq_some hf, ?_⟩
        have := List.find?_some hf
        simpa using this
      · rename_i hf
        obtain ⟨s, hs, rest'⟩ := ih h
        exact ⟨s, List.mem_cons_of_mem s0 hs, rest'⟩

/-- C8: for a message with several one-pass-signature packets before the
literal and trailing signature packets after it, opening against a
keyring holding any one of the signers sets MultiSig, leaves no
signature error after the body is drained, and exposes as the signer a
matching key of that keyring; while against a keyring in which no key
verifies any trailing signature, verification does not succeed and the
signature error is ErrUnknownIssuer. -/
theorem multisig_message (ops : CryptoOps) (kring : List Entity) (m : SignedMessage)
    (hmulti : 1 < m.onePass.length) :
    ((∃ s ∈ m.trailingSigs, ∃ id k, s.issuerKeyId = some id ∧ k ∈ keysById kring id ∧
        ops.verifyDetached k m.literal s = true) →
      (readSignedMessage ops kring m).multiSig = true ∧
        (readSignedMessage ops kring m).signatureError = none ∧
        ∃ k, (readSignedMessage ops kring m).signedBy = some k ∧
          ∃ s ∈ m.trailingSigs, ∃ id, s.issuerKeyId = some id ∧ k ∈ keysById kring id ∧
            ops.verifyDetached k m.literal s = true) ∧
      ((∀ s ∈ m.trailingSigs, ∀ id, s.issuerKeyId = some id →
          ∀ k ∈ keysById kring id, ops.verifyDetached k m.literal s = false) →
        (readSignedMessage ops kring m).multiSig = true ∧
          (readSignedMessage ops kring m).signatureError = some PGPError.unknownIssuer) := by
  constructor
  · intro hex
    cases hv : findVerifier ops kring m.literal m.trailingSigs with
    | none =>
      exfalso
      obtain ⟨s, hs, id, k, hid, hk, hver⟩ := hex
      have := findVerifier_none_sound ops kring m.literal m.trailingSigs hv s hs id hid k hk
      rw [hver] at this
      exact Bool.noConfusion this
    | some k =>
      refine ⟨by simp [readSignedMessage, hmulti], ?_, ?_⟩
      · simp [readSignedMessage, hv]
      · refine ⟨k, by simp [readSignedMessage, hv], ?_⟩
        exact findVerifier_some_sound ops kring m.literal m.trailingSigs k hv
  · intro hall
    refine ⟨by simp [readSignedMessage, hmulti], ?_⟩
    cases hv : findVerifier ops kring m.literal m.trailingSigs with
    | none => simp [readSignedMessage, hv]
    | some k =>
      exfalso
      obtain ⟨s, hs, id, hid, hk, hver⟩ :=
        findVerifier_some_sound ops kring m.literal m.trailingSigs k hv
      have := hall s hs id hid k hk
      rw [hver] at this
      exact Bool.noConfusion this

/-- A concrete trailing signature by pkPrimary over a literal body. -/
def sigTrailing : Sig :=
  { sigType := SigType.binary, creationTime := 20, keyLifetimeSecs := none
    flagSign := false, embedded := none, issuerKeyId := some 1, hashId := 2 }

/-- A concrete two-signer one-pass-signed message. -/
def msgTwoSigners : SignedMessage :=
  { onePass := [{ keyId := 1, hashId := 2 }, { keyId := 9, hashId := 2 }]
    literal := [7, 7]
    trailingSigs := [sigTrailing,
      { sigType := SigType.binary, creationTime := 21, keyLifetimeSecs := none
        flagSign := false, embedded := none, issuerKeyId := some 9, hashId := 2 }] }

/-- Witness for C8: a keyring holding the first signer verifies the
two-signer message with MultiSig set and no signature error. -/
theorem multisig_message_app :
    (readSignedMessage opsAll [entPrimary] msgTwoSigners).multiSig = true ∧
      (readSignedMessage opsAll [entPrimary] msgTwoSigners).signatureError = none ∧
      ∃ k, (readSignedMessage opsAll [entPrimary] msgTwoSigners).signedBy = some k ∧
        ∃ s ∈ msgTwoSigners.trailingSigs, ∃ id, s.issuerKeyId = some id ∧
          k ∈ keysById [entPrimary] id ∧
          opsAll.verifyDetached k msgTwoSigners.literal s = true := by
  exact (multisig_message opsAll [entPrimary] msgTwoSigners (by decide)).1
    ⟨sigTrailing, by simp [msgTwoSigners], 1, pkPrimary, rfl,
      by simp [keysById, entPrimary, pkPrimary], rfl⟩

/-- A certification signature type is none of the key-level or subkey
signature types. -/
theorem selfCertType_ne (t : SigType) (h : isSelfCertType t = true) :
    (t != SigType.keyRevocation) = true ∧ (t == SigType.keyRevocation) = false ∧
      (t != SigType.certRevocation) = true ∧ (t == SigType.certRevocation) = false := by
  cases t <;> simp [isSelfCertType] at h <;> decide

/-- Unpacking of the self-certification predicate. -/
theorem isSelfCert_spec (ops : CryptoOps) (primary : PubKey) (n : String) (s : Sig)
    (h : isSelfCert ops primary n s = true) :
    isSelfCertType s.sigType = true ∧ s.issuerKeyId = some primary.keyId ∧
      ops.verifyUserIdSig primary n s = true := by
  unfold isSelfCert at h
  simp only [Bool.and_eq_true, beq_iff_eq] at h
  exact ⟨h.1.1, h.1.2, h.2⟩

/-- A user id followed by one verifying self-certification assembles to
the identity with that self-signature, no third-party signatures and no
revocation. -/
theorem buildIdentity_single (ops : CryptoOps) (primary : PubKey) (n : String) (s : Sig)
    (h : isSelfCert ops primary n s = true) :
    buildIdentity ops primary n [s]
      = some { name := n, selfSignature := s, signatures := [], revocation := none } := by
  obtain ⟨ht, hi, _⟩ := isSelfCert_spec ops primary n s h
  obtain ⟨_, _, _, hcr⟩ := selfCertType_ne s.sigType ht
  unfold buildIdentity selectSelfSig
  simp [h, pickLatest, List.filter, List.find?, hi, hcr]

/-- C1: a signing-capable subkey is accepted into Subkeys exactly when
its binding signature embeds a primary-key-binding cross-signature that
verifies with the subkey as signer; a missing or invalid
cross-signature sends the subkey to BadSubkeys with a StructuralError
whose message contains "cross-signature", while the rest of the entity
(its identity) still parses without error. -/
theorem cross_signature_gates_subkey (ops : CryptoOps) (primary sub : PubKey)
    (n : String) (uidSig bindSig : Sig)
    (hp : primary.isSubkey = false) (hs : sub.isSubkey = true)
    (hu : isSelfCert ops primary n uidSig = true)
    (hbt : bindSig.sigType = SigType.subkeyBinding)
    (hbv : ops.verifyKeySig primary sub bindSig = true)
    (hflag : bindSig.flagSign = true) :
    ∃ e, readKeyRing ops [Packet.pubKey primary, Packet.userId n, Packet.sig uidSig,
          Packet.pubKey sub, Packet.sig bindSig] = Except.ok [e] ∧
      e.identities = [{ name := n, selfSignature := uidSig, signatures := []
                        revocation := none }] ∧
      (∀ emb, bindSig.embedded = some emb → ops.verifyCrossSig primary sub emb = true →
        e.subkeys = [{ publicKey := sub, sig := bindSig, revocation := none }] ∧
          e.badSubkeys = []) ∧
      (∀ emb, bindSig.embedded = some emb → ops.verifyCrossSig primary sub emb = false →
        e.subkeys = [] ∧ ∃ msg, e.badSubkeys = [{ subkey := sub, err := PGPError.structural msg }] ∧
          strHasSub msg "cross-signature" = true) ∧
      (bindSig.embedded = none →
        e.subkeys = [] ∧ ∃ msg, e.badSubkeys = [{ subkey := sub, err := PGPError.structural msg }] ∧
          strHasSub msg "cross-signature" = true) := by
  obtain ⟨ht, hi, _⟩ := isSelfCert_spec ops primary n uidSig hu
  obtain ⟨hnr, hnr2, _, _⟩ := selfCertType_ne uidSig.sigType ht
  have eb1 : (SigType.subkeyBinding != SigType.keyRevocation) = true := by decide
  have eb2 : (SigType.subkeyBinding == SigType.keyRevocation) = false := by decide
  have hsplit : splitEntityBody [Packet.userId n, Packet.sig uidSig,
      Packet.pubKey sub, Packet.sig bindSig]
      = ([Packet.userId n, Packet.sig uidSig, Packet.pubKey sub, Packet.sig bindSig], []) := by
    simp [splitEntityBody, hs]
  have hgroup : groupPackets [Packet.userId n, Packet.sig uidSig,
      Packet.pubKey sub, Packet.sig bindSig]
      = ([(n, [uidSig])], [(sub, [bindSig])], []) := by
    simp [groupPackets, takeSigs, List.filter, hnr, hnr2, hbt, eb1, eb2]
  have hident := buildIdentity_single ops primary n uidSig hu
  have hsub : ∀ res, buildSubkey ops primary sub [bindSig] = res →
      makeEntity ops primary [Packet.userId n, Packet.sig uidSig,
        Packet.pubKey sub, Packet.sig bindSig]
      = Except.ok { primaryKey := primary
                    identities := [{ name := n, selfSignature := uidSig, signatures := []
                                     revocation := none }]
                    subkeys := goodSubkeys [res]
                    revocations := []
                    unverifiedRevocations := []
                    badSubkeys := badSubkeysOf [res] } := by
    intro res hres
    unfold makeEntity
    rw [hgroup]
    simp [hident, hres, classifyKeyLevel, List.filter]
  have hread : ∀ res, buildSubkey ops primary sub [bindSig] = res →
      readKeyRing ops [Packet.pubKey primary, Packet.userId n, Packet.sig uidSig,
        Packet.pubKey sub, Packet.sig bindSig]
      = Except.ok [{ primaryKey := primary
                     identities := [{ name := n, selfSignature := uidSig, signatures := []
                                      revocation := none }]
                     subkeys := goodSubkeys [res]
                     revocations := []
                     unverifiedRevocations := []
                     badSubkeys := badSubkeysOf [res] }] := by
    intro res hres
    unfold readKeyRing
    rw [hp]
    simp only [Bool.false_eq_true, if_false, hsplit]
    rw [hsub res hres]
    simp [readKeyRing]
  cases hemb : bindSig.embedded with
  | none =>
    have hbs : buildSubkey ops primary sub [bindSig]
        = Sum.inl { subkey := sub
                    err := PGPError.structural
                      "subkey signature invalid: signing subkey is missing cross-signature" } := by
      unfold buildSubkey
      simp [subkeyStep, hbt, checkBindingSig, hbv, hflag, hemb]
    refine ⟨_, hread _ hbs, rfl, ?_, ?_, ?_⟩
    · intro emb he
      exact Option.noConfusion he
    · intro emb he
      exact fun _ => Option.noConfusion he
    · intro _
      refine ⟨rfl, "subkey signature invalid: signing subkey is missing cross-signature",
        rfl, by decide⟩
  | some emb =>
    cases hcross : ops.verifyCrossSig primary sub emb with
    | true =>
      have hbs : buildSubkey ops primary sub [bindSig]
          = Sum.inr { publicKey := sub, sig := bindSig, revocation := none } := by
        unfold buildSubkey
        simp [subkeyStep, hbt, checkBindingSig, hbv, hflag, hemb, hcross]
      refine ⟨_, hread _ hbs, rfl, ?_, ?_, ?_⟩
      · intro emb2 he2 _
        exact ⟨rfl, rfl⟩
      · intro emb2 he2 hc2
        have h2 : emb = emb2 := Option.some.inj he2
        rw [← h2, hcross] at hc2
        exact Bool.noConfusion hc2
      · intro he2
        exact Option.noConfusion he2
    | false =>
      have hbs : buildSubkey ops primary sub [bindSig]
          = Sum.inl { subkey := sub
                      err := PGPError.structural
                        "subkey signature invalid: error while validating cross-signature" } := by
        unfold buildSubkey
        simp [subkeyStep, hbt, checkBindingSig, hbv, hflag, hemb, hcross]
      refine ⟨_, hread _ hbs, rfl, ?_, ?_, ?_⟩
      · intro emb2 he2 hc2
        have h2 : emb = emb2 := Option.some.inj he2
        rw [← h2, hcross] at hc2
        exact Bool.noConfusion hc2
      · intro emb2 he2 _
        refine ⟨rfl, "subkey signature invalid: error while validating cross-signature",
          rfl, by decide⟩
      · intro he2
        exact Option.noConfusion he2

/-- A concrete signing-capable subkey-binding signature with a valid
embedded cross-signature. -/
def sigBindSigning : Sig :=
  { sigType := SigType.subkeyBinding, creationTime := 12, keyLifetimeSecs := none
    flagSign := true
    embedded := some { sigType := SigType.primaryKeyBinding, hashId := 2, raw := 0 }
    issuerKeyId := some 1, hashId := 2 }

/-- Witness for C1 at a concrete stream whose signing subkey carries a
verifying cross-signature: the subkey is accepted. -/
theorem cross_signature_gates_subkey_app :
    ∃ e, readKeyRing opsAll [Packet.pubKey pkPrimary, Packet.userId "a",
          Packet.sig sigSelfCert, Packet.pubKey pkSub, Packet.sig sigBindSigning]
        = Except.ok [e] ∧
      e.subkeys = [{ publicKey := pkSub, sig := sigBindSigning, revocation := none }] ∧
      e.badSubkeys = [] := by
  obtain ⟨e, h1, _, h3, _, _⟩ := cross_signature_gates_subkey opsAll pkPrimary pkSub "a"
    sigSelfCert sigBindSigning rfl rfl (by decide) rfl rfl rfl
  obtain ⟨hs1, hs2⟩ := h3 { sigType := SigType.primaryKeyBinding, hashId := 2, raw := 0 }
    rfl rfl
  exact ⟨e, h1, hs1, hs2⟩

/-- A user id with two verifying self-certifications assembles to the
identity carrying the one with the most recent creation time, ties
going to the later one in the stream. -/
theorem buildIdentity_two (ops : CryptoOps) (primary : PubKey) (n : String) (sa sb : Sig)
    (ha : isSelfCert ops primary n sa = true) (hb : isSelfCert ops primary n sb = true)
    (hle : sa.creationTime ≤ sb.creationTime) :
    buildIdentity ops primary n [sa, sb]
      = some { name := n, selfSignature := sb, signatures := [], revocation := none } := by
  obtain ⟨hta, hia, _⟩ := isSelfCert_spec ops primary n sa ha
  obtain ⟨htb, hib, _⟩ := isSelfCert_spec ops primary n sb hb
  obtain ⟨_, _, _, hcra⟩ := selfCertType_ne sa.sigType hta
  obtain ⟨_, _, _, hcrb⟩ := selfCertType_ne sb.sigType htb
  unfold buildIdentity selectSelfSig
  simp [ha, hb, pickLatest, hle, List.filter, List.find?, hia, hib, hcra, hcrb]

/-- C4: when several self-signatures verify on the same target the
assembler keeps the one with the most recent creation time, breaking
ties towards the one appearing later in the stream, regardless of
packet order: (a) for the order PUBKEY UID UIDSELFSIG SUBKEY SELFSIG1
SELFSIG2 with SELFSIG2 at least as recent, SELFSIG2 is chosen, and when
it carries no key expiry the chosen signature has no key lifetime; (b)
with the two binding signatures swapped in the stream and SELFSIG2
strictly more recent, SELFSIG2 is still chosen; (c) the same recency
rule selects an identity's self-signature. -/
theorem latest_selfsig_selected (ops : CryptoOps) (primary sub : PubKey) (n : String)
    (uidSig s1 s2 : Sig)
    (hp : primary.isSubkey = false) (hs : sub.isSubkey = true)
    (hu : isSelfCert ops primary n uidSig = true)
    (h1t : s1.sigType = SigType.subkeyBinding) (h2t : s2.sigType = SigType.subkeyBinding)
    (h1f : s1.flagSign = false) (h2f : s2.flagSign = false)
    (h1v : ops.verifyKeySig primary sub s1 = true)
    (h2v : ops.verifyKeySig primary sub s2 = true) :
    (s1.creationTime ≤ s2.creationTime →
      ∃ e, readKeyRing ops [Packet.pubKey primary, Packet.userId n, Packet.sig uidSig,
            Packet.pubKey sub, Packet.sig s1, Packet.sig s2] = Except.ok [e] ∧
        e.subkeys = [{ publicKey := sub, sig := s2, revocation := none }] ∧
        (s2.keyLifetimeSecs = none →
          e.subkeys.map (fun sk => sk.sig.keyLifetimeSecs) = [none])) ∧
      (s1.creationTime < s2.creationTime →
        ∃ e, readKeyRing ops [Packet.pubKey primary, Packet.userId n, Packet.sig uidSig,
              Packet.pubKey sub, Packet.sig s2, Packet.sig s1] = Except.ok [e] ∧
          e.subkeys = [{ publicKey := sub, sig := s2, revocation := none }]) ∧
      (∀ sa sb : Sig, isSelfCert ops primary n sa = true →
        isSelfCert ops primary n sb = true → sa.creationTime ≤ sb.creationTime →
        ∃ e, readKeyRing ops [Packet.pubKey primary, Packet.userId n, Packet.sig sa,
              Packet.sig sb] = Except.ok [e] ∧
          e.identities.map Identity.selfSignature = [sb]) := by
  obtain ⟨ht, hi, _⟩ := isSelfCert_spec ops primary n uidSig hu
  obtain ⟨hnr, hnr2, _, _⟩ := selfCertType_ne uidSig.sigType ht
  have eb1 : (SigType.subkeyBinding != SigType.keyRevocation) = true := by decide
  have eb2 : (SigType.subkeyBinding == SigType.keyRevocation) = false := by decide
  have hident := buildIdentity_single ops primary n uidSig hu
  refine ⟨?_, ?_, ?_⟩
  · intro hle
    have hsplit : splitEntityBody [Packet.userId n, Packet.sig uidSig,
        Packet.pubKey sub, Packet.sig s1, Packet.sig s2]
        = ([Packet.userId n, Packet.sig uidSig, Packet.pubKey sub, Packet.sig s1,
            Packet.sig s2], []) := by
      simp [splitEntityBody, hs]
    have hgroup : groupPackets [Packet.userId n, Packet.sig uidSig,
        Packet.pubKey sub, Packet.sig s1, Packet.sig s2]
        = ([(n, [uidSig])], [(sub, [s1, s2])], []) := by
      simp [groupPackets, takeSigs, List.filter, hnr, hnr2, h1t, h2t, eb1, eb2]
    have hbs : buildSubkey ops primary sub [s1, s2]
        = Sum.inr { publicKey := sub, sig := s2, revocation := none } := by
      unfold buildSubkey
      simp [subkeyStep, h1t, h2t, checkBindingSig, h1v, h2v, h1f, h2f, hle]
    refine ⟨{ primaryKey := primary
              identities := [{ name := n, selfSignature := uidSig, signatures := []
                               revocation := none }]
              subkeys := [{ publicKey := sub, sig := s2, revocation := none }]
              revocations := [], unverifiedRevocations := [], badSubkeys := [] },
      ?_, rfl, fun h => by simp [h]⟩
    unfold readKeyRing
    rw [hp]
    simp only [Bool.false_eq_true, if_false, hsplit]
    rw [makeEntity, hgroup]
    simp [hident, hbs, classifyKeyLevel, List.filter, readKeyRing, goodSubkeys, badSubkeysOf]
  · intro hlt
    have hsplit : splitEntityBody [Packet.userId n, Packet.sig uidSig,
        Packet.pubKey sub, Packet.sig s2, Packet.sig s1]
        = ([Packet.userId n, Packet.sig uidSig, Packet.pubKey sub, Packet.sig s2,
            Packet.sig s1], []) := by
      simp [splitEntityBody, hs]
    have hgroup : groupPackets [Packet.userId n, Packet.sig uidSig,
        Packet.pubKey sub, Packet.sig s2, Packet.sig s1]
        = ([(n, [uidSig])], [(sub, [s2, s1])], []) := by
      simp [groupPackets, takeSigs, List.filter, hnr, hnr2, h1t, h2t, eb1, eb2]
    have hnle : ¬ s2.creationTime ≤ s1.creationTime := by omega
    have hbs : buildSubkey ops primary sub [s2, s1]
        = Sum.inr { publicKey := sub, sig := s2, revocation := none } := by
      unfold buildSubkey
      simp [subkeyStep, h1t, h2t, checkBindingSig, h1v, h2v, h1f, h2f, hnle]
    refine ⟨{ primaryKey := primary
              identities := [{ name := n, selfSignature := uidSig, signatures := []
                               revocation := none }]
              subkeys := [{ publicKey := sub, sig := s2, revocation := none }]
              revocations := [], unverifiedRevocations := [], badSubkeys := [] },
      ?_, rfl⟩
    unfold readKeyRing
    rw [hp]
    simp only [Bool.false_eq_true, if_false, hsplit]
    rw [makeEntity, hgroup]
    simp [hident, hbs, classifyKeyLevel, List.filter, readKeyRing, goodSubkeys, badSubkeysOf]
  · intro sa sb ha hb hle
    obtain ⟨hta, _, _⟩ := isSelfCert_spec ops primary n sa ha
    obtain ⟨htb, _, _⟩ := isSelfCert_spec ops primary n sb hb
    obtain ⟨hra, hra2, _, _⟩ := selfCertType_ne sa.sigType hta
    obtain ⟨hrb, hrb2, _, _⟩ := selfCertType_ne sb.sigType htb
    have hsplit : splitEntityBody [Packet.userId n, Packet.sig sa, Packet.sig sb]
        = ([Packet.userId n, Packet.sig sa, Packet.sig sb], []) := by
      simp [splitEntityBody]
    have hgroup : groupPackets [Packet.userId n, Packet.sig sa, Packet.sig sb]
        = ([(n, [sa, sb])], [], []) := by
      simp [groupPackets, takeSigs, List.filter, hra, hra2, hrb, hrb2]
    have hident2 := buildIdentity_two ops primary n sa sb ha hb hle
    refine ⟨{ primaryKey := primary
              identities := [{ name := n, selfSignature := sb, signatures := []
                               revocation := none }]
              subkeys := []
              revocations := [], unverifiedRevocations := [], badSubkeys := [] },
      ?_, rfl⟩
    unfold readKeyRing
    rw [hp]
    simp only [Bool.false_eq_true, if_false, hsplit]
    rw [makeEntity, hgroup]
    simp [hident2, classifyKeyLevel, List.filter, readKeyRing, goodSubkeys, badSubkeysOf]

/-- A concrete earlier (expiring) subkey-binding signature. -/
def sigBind1 : Sig :=
  { sigType := SigType.subkeyBinding, creationTime := 12, keyLifetimeSecs := some 100
    flagSign := false, embedded := none, issuerKeyId := some 1, hashId := 2 }

/-- A concrete later subkey-binding signature with no key expiry. -/
def sigBind2 : Sig :=
  { sigType := SigType.subkeyBinding, creationTime := 13, keyLifetimeSecs := none
    flagSign := false, embedded := none, issuerKeyId := some 1, hashId := 2 }

/-- Witness for C4 at a concrete stream: the later-created binding
signature without key expiry is chosen, so the chosen signature has no
key lifetime. -/
theorem latest_selfsig_selected_app :
    ∃ e, readKeyRing opsAll [Packet.pubKey pkPrimary, Packet.userId "a",
          Packet.sig sigSelfCert, Packet.pubKey pkSub, Packet.sig sigBind1,
          Packet.sig sigBind2] = Except.ok [e] ∧
      e.subkeys = [{ publicKey := pkSub, sig := sigBind2, revocation := none }] ∧
      e.subkeys.map (fun sk => sk.sig.keyLifetimeSecs) = [none] := by
  obtain ⟨e, h1, h2, h3⟩ := (latest_selfsig_selected opsAll pkPrimary pkSub "a"
    sigSelfCert sigBind1 sigBind2 rfl rfl (by decide) rfl rfl rfl rfl rfl rfl).1
    (by decide)
  exact ⟨e, h1, h2, h3 rfl⟩

/-- Counterexample to C2 as stated: a concrete entity stream carrying a
certification-revocation over user id "b", where "b" has no
self-certification.  The revoked user id does not remain a key of the
identity map: the entity parses with "a" as its only identity. -/
theorem revoked_uid_dropped_counterexample :
    ∃ e, readKeyRing opsAll [Packet.pubKey pkPrimary, Packet.userId "a",
          Packet.sig sigSelfCert, Packet.userId "b", Packet.sig sigCertRev]
        = Except.ok [e] ∧
      e.identities.map Identity.name = ["a"] ∧
      "b" ∉ e.identities.map Identity.name := by
  refine ⟨{ primaryKey := pkPrimary
            identities := [{ name := "a", selfSignature := sigSelfCert, signatures := []
                             revocation := none }]
            subkeys := [], revocations := [], unverifiedRevocations := [], badSubkeys := [] },
    ?_, by simp, by simp⟩
  have d1 : (SigType.positiveCert != SigType.keyRevocation) = true := by decide
  have d2 : (SigType.positiveCert == SigType.keyRevocation) = false := by decide
  have d3 : (SigType.certRevocation != SigType.keyRevocation) = true := by decide
  have d4 : (SigType.certRevocation == SigType.keyRevocation) = false := by decide
  have d5 : (SigType.positiveCert == SigType.certRevocation) = false := by decide
  unfold readKeyRing
  simp only [pkPrimary, Bool.false_eq_true, if_false]
  rw [makeEntity]
  simp [splitEntityBody, groupPackets, takeSigs, buildIdentity, selectSelfSig,
    isSelfCert, isSelfCertType, pickLatest, classifyKeyLevel, sigSelfCert, sigCertRev,
    opsAll, pkPrimary, List.filter, List.find?, goodSubkeys, badSubkeysOf, readKeyRing,
    d1, d2, d3, d4, d5]

/-- C2 as amended: a revoked identity that carries a verifying
self-certification is not removed from the identity map; it remains a
key of the map with its revocation field set to the
certification-revocation, while unrevoked identities have no
revocation.  A user id carrying only a revocation and no verifying
self-certification is omitted from the map altogether (keys_test.go
TestRevokedUserID). -/
theorem revoked_identity_kept (ops : CryptoOps) (primary : PubKey) (n1 n2 : String)
    (s1 s2 rev : Sig)
    (hp : primary.isSubkey = false)
    (h1 : isSelfCert ops primary n1 s1 = true)
    (h2 : isSelfCert ops primary n2 s2 = true)
    (hrt : rev.sigType = SigType.certRevocation)
    (hri : rev.issuerKeyId = some primary.keyId)
    (hrv : ops.verifyUserIdSig primary n2 rev = true) :
    ∃ e, readKeyRing ops [Packet.pubKey primary, Packet.userId n1, Packet.sig s1,
          Packet.userId n2, Packet.sig s2, Packet.sig rev] = Except.ok [e] ∧
      e.identities.map Identity.name = [n1, n2] ∧
      e.identities.map Identity.revocation = [none, some rev] := by
  obtain ⟨ht1, hi1, _⟩ := isSelfCert_spec ops primary n1 s1 h1
  obtain ⟨ht2, hi2, _⟩ := isSelfCert_spec ops primary n2 s2 h2
  obtain ⟨hr1, hr1b, _, _⟩ := selfCertType_ne s1.sigType ht1
  obtain ⟨hr2, hr2b, _, hcr2⟩ := selfCertType_ne s2.sigType ht2
  have hrne : (rev.sigType != SigType.keyRevocation) = true := by rw [hrt]; decide
  have hrne2 : (rev.sigType == SigType.keyRevocation) = false := by rw [hrt]; decide
  have hident1 := buildIdentity_single ops primary n1 s1 h1
  have hrevFalse : isSelfCert ops primary n2 rev = false := by
    unfold isSelfCert
    rw [hrt]
    simp [isSelfCertType]
  have hident2 : buildIdentity ops primary n2 [s2, rev]
      = some { name := n2, selfSignature := s2, signatures := [], revocation := some rev } := by
    have hrb : (rev.sigType == SigType.certRevocation) = true := by rw [hrt]; decide
    have hrs : isSelfCertType rev.sigType = false := by rw [hrt]; decide
    unfold buildIdentity selectSelfSig
    simp [h2, hrevFalse, pickLatest, List.filter, List.find?, hi2, hcr2, hrt, hri, hrv,
      hrb, hrs]
  have hsplit : splitEntityBody [Packet.userId n1, Packet.sig s1,
      Packet.userId n2, Packet.sig s2, Packet.sig rev]
      = ([Packet.userId n1, Packet.sig s1, Packet.userId n2, Packet.sig s2,
          Packet.sig rev], []) := by
    simp [splitEntityBody]
  have hgroup : groupPackets [Packet.userId n1, Packet.sig s1,
      Packet.userId n2, Packet.sig s2, Packet.sig rev]
      = ([(n1, [s1]), (n2, [s2, rev])], [], []) := by
    simp [groupPackets, takeSigs, List.filter, hr1, hr1b, hr2, hr2b, hrne, hrne2]
  refine ⟨{ primaryKey := primary
            identities := [{ name := n1, selfSignature := s1, signatures := []
                             revocation := none },
                           { name := n2, selfSignature := s2, signatures := []
                             revocation := some rev }]
            subkeys := [], revocations := [], unverifiedRevocations := [], badSubkeys := [] },
    ?_, by simp, by simp⟩
  unfold readKeyRing
  rw [hp]
  simp only [Bool.false_eq_true, if_false, hsplit]
  rw [makeEntity, hgroup]
  simp [hident1, hident2, classifyKeyLevel, List.filter, readKeyRing, goodSubkeys,
    badSubkeysOf]

/-- Witness for the amended C2 at a concrete stream: the second user id
has both a self-certification and a verifying revocation, and it stays
in the map with the revocation recorded. -/
theorem revoked_identity_kept_app :
    ∃ e, readKeyRing opsAll [Packet.pubKey pkPrimary, Packet.userId "a",
          Packet.sig sigSelfCert, Packet.userId "b", Packet.sig sigSelfCert,
          Packet.sig sigCertRev] = Except.ok [e] ∧
      e.identities.map Identity.name = ["a", "b"] ∧
      e.identities.map Identity.revocation = [none, some sigCertRev] := by
  exact revoked_identity_kept opsAll pkPrimary "a" "b" sigSelfCert sigSelfCert sigCertRev
    rfl (by decide) (by decide) rfl rfl rfl

/-- Well-formedness of an assembled identity relative to its primary
key: the chosen self-signature verifies, retained third-party
certifications are certification types by other issuers, and a recorded
revocation is a verifying certification-revocation by the key holder. -/
def IdentityWF (ops : CryptoOps) (primary : PubKey) (id : Identity) : Prop :=
  isSelfCert ops primary id.name id.selfSignature = true ∧
    (∀ s ∈ id.signatures, isSelfCertType s.sigType = true ∧
      (s.issuerKeyId != some primary.keyId) = true) ∧
    (∀ r, id.revocation = some r → r.sigType = SigType.certRevocation ∧
      r.issuerKeyId = some primary.keyId ∧ ops.verifyUserIdSig primary id.name r = true)

/-- Well-formedness of an assembled subkey: it is a subkey-role key
whose chosen binding signature passes the full binding check (including
the cross-signature requirement for signing subkeys), with a verifying
revocation binding when present. -/
def SubkeyWF (ops : CryptoOps) (primary : PubKey) (sk : Subkey) : Prop :=
  sk.publicKey.isSubkey = true ∧
    sk.sig.sigType = SigType.subkeyBinding ∧
    checkBindingSig ops primary sk.publicKey sk.sig = none ∧
    (∀ r, sk.revocation = some r → r.sigType = SigType.subkeyRevocation ∧
      ops.verifyKeySig primary sk.publicKey r = true)

/-- Well-formedness of an assembled entity. -/
def EntityWF (ops : CryptoOps) (e : Entity) : Prop :=
  e.primaryKey.isSubkey = false ∧
    e.identities ≠ [] ∧
    (∀ id ∈ e.identities, IdentityWF ops e.primaryKey id) ∧
    (∀ sk ∈ e.subkeys, SubkeyWF ops e.primaryKey sk)

/-- One step of the subkey fold only records a chosen binding signature
that passed the binding check. -/
theorem subkeyStep_sig_inv (ops : CryptoOps) (primary sub : PubKey) (acc : SubkeyAcc)
    (s0 s : Sig) (h : (subkeyStep ops primary sub acc s0).sig = some s) :
    acc.sig = some s ∨ (s = s0 ∧ s0.sigType = SigType.subkeyBinding ∧
      checkBindingSig ops primary sub s0 = none) := by
  unfold subkeyStep at h
  split at h
  · rename_i hb
    split at h
    · left; exact h
    · rename_i hc
      split at h
      · simp only at h
        right
        exact ⟨(Option.some.inj h).symm, hb, hc⟩
      · split at h
        · simp only at h
          right
          exact ⟨(Option.some.inj h).symm, hb, hc⟩
        · left; exact h
  · split at h
    · split at h
      · split at h
        · left; exact h
        · left; exact h
      · left; exact h
    · left; exact h

/-- One step of the subkey fold only records a verifying
subkey-revocation. -/
theorem subkeyStep_rev_inv (ops : CryptoOps) (primary sub : PubKey) (acc : SubkeyAcc)
    (s0 r : Sig) (h : (subkeyStep ops primary sub acc s0).revocation = some r) :
    acc.revocation = some r ∨ (r = s0 ∧ s0.sigType = SigType.subkeyRevocation ∧
      ops.verifyKeySig primary sub s0 = true) := by
  unfold subkeyStep at h
  split at h
  · split at h
    · left; exact h
    · split at h
      · left; exact h
      · split at h
        · left; exact h
        · left; exact h
  · rename_i hr0
    split at h
    · rename_i hrev
      split at h
      · rename_i hv
        split at h
        · rename_i hacc
          simp only at h
          right
          exact ⟨(Option.some.inj h).symm, hrev, hv⟩
        · left; exact h
      · left; exact h
    · left; exact h

/-- The subkey fold as a whole preserves the signature and revocation
invariants. -/
theorem subkeyFold_inv (ops : CryptoOps) (primary sub : PubKey) (sigs : List Sig)
    (acc : SubkeyAcc)
    (hs : ∀ s, acc.sig = some s → s.sigType = SigType.subkeyBinding ∧
      checkBindingSig ops primary sub s = none)
    (hr : ∀ r, acc.revocation = some r → r.sigType = SigType.subkeyRevocation ∧
      ops.verifyKeySig primary sub r = true) :
    (∀ s, (sigs.foldl (subkeyStep ops primary sub) acc).sig = some s →
      s.sigType = SigType.subkeyBinding ∧ checkBindingSig ops primary sub s = none) ∧
    (∀ r, (sigs.foldl (subkeyStep ops primary sub) acc).revocation = some r →
      r.sigType = SigType.subkeyRevocation ∧ ops.verifyKeySig primary sub r = true) := by
  induction sigs generalizing acc with
  | nil => exact ⟨hs, hr⟩
  | cons s0 rest ih =>
    apply ih
    · intro s h
      rcases subkeyStep_sig_inv ops primary sub acc s0 s h with h2 | ⟨rfl, h3, h4⟩
      · exact hs s h2
      · exact ⟨h3, h4⟩
    · intro r h
      rcases subkeyStep_rev_inv ops primary sub acc s0 r h with h2 | ⟨rfl, h3, h4⟩
      · exact hr r h2
      · exact ⟨h3, h4⟩

/-- A successfully assembled subkey satisfies all invariants relative to
the key packet it was read from. -/
theorem buildSubkey_inr (ops : CryptoOps) (primary sub : PubKey) (sigs : List Sig)
    (sk : Subkey) (h : buildSubkey ops primary sub sigs = Sum.inr sk) :
    sk.publicKey = sub ∧ sk.sig.sigType = SigType.subkeyBinding ∧
      checkBindingSig ops primary sub sk.sig = none ∧
      (∀ r, sk.revocation = some r → r.sigType = SigType.subkeyRevocation ∧
        ops.verifyKeySig primary sub r = true) := by
  unfold buildSubkey at h
  obtain ⟨hs, hr⟩ := subkeyFold_inv ops primary sub sigs ⟨none, none, none⟩
    (fun s hc => Option.noConfusion hc) (fun r hc => Option.noConfusion hc)
  split at h
  · rename_i s rev le heq
    have h2 := Sum.inr.inj h
    obtain ⟨h3, h4⟩ := hs s (by rw [heq])
    subst h2
    refine ⟨rfl, h3, h4, ?_⟩
    intro r hrv
    apply hr r
    rw [heq]
    exact hrv
  · exact Sum.noConfusion h

/-- The self-signature selection fold only returns verifying
self-certifications. -/
theorem selectSelfSig_fold_inv (ops : CryptoOps) (primary : PubKey) (n : String)
    (sigs : List Sig) (acc : Option Sig)
    (hacc : ∀ s, acc = some s → isSelfCert ops primary n s = true) :
    ∀ s, sigs.foldl
        (fun acc s => if isSelfCert ops primary n s then pickLatest acc s else acc) acc
        = some s →
      isSelfCert ops primary n s = true := by
  induction sigs generalizing acc with
  | nil => exact hacc
  | cons s0 rest ih =>
    apply ih
    intro s h
    simp only at h
    by_cases hc : isSelfCert ops primary n s0 = true
    · rw [hc] at h
      simp only [if_true] at h
      unfold pickLatest at h
      cases hao : acc with
      | none =>
        rw [hao] at h
        simp only at h
        rw [← Option.some.inj h]
        exact hc
      | some c =>
        rw [hao] at h
        simp only at h
        split at h
        · rw [← Option.some.inj h]; exact hc
        · exact hacc s (hao.symm ▸ h)
    · have hcf : isSelfCert ops primary n s0 = false := by
        cases hcc : isSelfCert ops primary n s0
        · rfl
        · exact absurd hcc hc
      rw [hcf] at h
      simp only [Bool.false_eq_true, if_false] at h
      exact hacc s h

/-- The selected identity self-signature verifies. -/
theorem selectSelfSig_isSelfCert (ops : CryptoOps) (primary : PubKey) (n : String)
    (sigs : List Sig) (s : Sig) (h : selectSelfSig ops primary n sigs = some s) :
    isSelfCert ops primary n s = true := by
  unfold selectSelfSig at h
  exact selectSelfSig_fold_inv ops primary n sigs none
    (fun s hc => Option.noConfusion hc) s h

/-- A successfully assembled identity satisfies all identity
invariants. -/
theorem buildIdentity_wf (ops : CryptoOps) (primary : PubKey) (n : String)
    (sigs : List Sig) (id : Identity) (h : buildIdentity ops primary n sigs = some id) :
    id.name = n ∧ IdentityWF ops primary id := by
  unfold buildIdentity at h
  cases hss : selectSelfSig ops primary n sigs with
  | none => rw [hss] at h; exact Option.noConfusion h
  | some ss =>
    rw [hss] at h
    simp only [Option.some.injEq] at h
    subst h
    refine ⟨rfl, ?_, ?_, ?_⟩
    · exact selectSelfSig_isSelfCert ops primary n sigs ss hss
    · intro s hs
      have := List.mem_filter.1 hs
      have hb := this.2
      simp only [Bool.and_eq_true] at hb
      exact hb
    · intro r hr
      have hfind := List.find?_some hr
      simp only [Bool.and_eq_true, beq_iff_eq] at hfind
      exact ⟨hfind.1.1, hfind.1.2, hfind.2⟩

/-- The remainder left by taking leading signatures is part of the
original stream. -/
theorem takeSigs_mem (ps : List Packet) : ∀ x ∈ (takeSigs ps).2, x ∈ ps := by
  induction ps with
  | nil => intro x hx; simpa [takeSigs] using hx
  | cons p rest ih =>
    intro x hx
    cases p with
    | sig s =>
      simp only [takeSigs] at hx
      exact List.mem_cons_of_mem _ (ih x hx)
    | pubKey pk => simpa [takeSigs] using hx
    | userId n => simpa [takeSigs] using hx
    | marker => simpa [takeSigs] using hx
    | trust => simpa [takeSigs] using hx

/-- Every subkey group produced by grouping comes from a key packet of
the grouped stream. -/
theorem groupPackets_subkey_mem (ps : List Packet) :
    ∀ pk sigs, (pk, sigs) ∈ (groupPackets ps).2.1 → Packet.pubKey pk ∈ ps := by
  induction ps using groupPackets.induct with
  | case1 =>
    intro pk sigs h
    simp [groupPackets] at h
  | case2 rest ih =>
    intro pk sigs h
    rw [groupPackets] at h
    exact List.mem_cons_of_mem _ (ih pk sigs h)
  | case3 rest ih =>
    intro pk sigs h
    rw [groupPackets] at h
    exact List.mem_cons_of_mem _ (ih pk sigs h)
  | case4 s rest ih =>
    intro pk sigs h
    rw [groupPackets] at h
    exact List.mem_cons_of_mem _ (ih pk sigs h)
  | case5 n rest t ih =>
    intro pk sigs h
    rw [groupPackets] at h
    simp only at h
    exact List.mem_cons_of_mem _
      (takeSigs_mem rest _ (ih pk sigs h))
  | case6 q rest t ih =>
    intro pk sigs h
    rw [groupPackets] at h
    simp only [List.mem_cons] at h
    rcases h with he | hm
    · have : pk = q := congrArg Prod.fst he
      rw [this]
      exact List.mem_cons_self _ _
    · exact List.mem_cons_of_mem _ (takeSigs_mem rest _ (ih pk sigs hm))

/-- Every key packet kept in an entity body by the splitter is a
subkey-role key packet. -/
theorem splitEntityBody_pubKey_mem (ps : List Packet) :
    ∀ q, Packet.pubKey q ∈ (splitEntityBody ps).1 → q.isSubkey = true := by
  induction ps with
  | nil => intro q hq; simp [splitEntityBody] at hq
  | cons p rest ih =>
    intro q hq
    cases p with
    | pubKey pk =>
      by_cases hk : pk.isSubkey = true
      · rw [splitEntityBody] at hq
        simp only [hk, if_true, List.mem_cons] at hq
        rcases hq with he | hm
        · have : q = pk := by injection he
          rw [this]; exact hk
        · exact ih q hm
      · rw [splitEntityBody] at hq
        simp only [if_neg hk] at hq
        simp at hq
    | userId n =>
      rw [splitEntityBody] at hq
      simp only [List.mem_cons] at hq
      rcases hq with he | hm
      · exact Packet.noConfusion he
      · exact ih q hm
    | sig s =>
      rw [splitEntityBody] at hq
      simp only [List.mem_cons] at hq
      rcases hq with he | hm
      · exact Packet.noConfusion he
      · exact ih q hm
    | marker =>
      rw [splitEntityBody] at hq
      simp only [List.mem_cons] at hq
      rcases hq with he | hm
      · exact Packet.noConfusion he
      · exact ih q hm
    | trust =>
      rw [splitEntityBody] at hq
      simp only [List.mem_cons] at hq
      rcases hq with he | hm
      · exact Packet.noConfusion he
      · exact ih q hm

/-- An entity assembled by makeEntity from a body whose key packets are
all subkey-role keys is well-formed. -/
theorem makeEntity_wf (ops : CryptoOps) (pk : PubKey) (body : List Packet) (e : Entity)
    (hpk : pk.isSubkey = false)
    (hbody : ∀ q, Packet.pubKey q ∈ body → q.isSubkey = true)
    (h : makeEntity ops pk body = Except.ok e) : EntityWF ops e := by
  unfold makeEntity at h
  split at h
  · exact Except.noConfusion h
  · rename_i hne
    have he := Except.ok.inj h
    subst he
    refine ⟨hpk, ?_, ?_, ?_⟩
    · intro hemp
      simp only at hemp
      rw [hemp] at hne
      simp at hne
    · intro id hid
      simp only at hid
      obtain ⟨p, hp, hbuild⟩ := List.mem_filterMap.1 hid
      exact (buildIdentity_wf ops pk p.1 p.2 id hbuild).2
    · intro sk hsk
      simp only at hsk
      obtain ⟨r, hrm, hrs⟩ := List.mem_filterMap.1 hsk
      obtain ⟨p, hpm, hpr⟩ := List.mem_map.1 hrm
      have hinr : buildSubkey ops pk p.1 p.2 = Sum.inr sk := by
        rw [hpr]
        cases r with
        | inl b => simp at hrs
        | inr s => simp only [Option.some.injEq] at hrs; rw [hrs]
      obtain ⟨hpub, hb2, hb3, hb4⟩ := buildSubkey_inr ops pk p.1 p.2 sk hinr
      have hmem : Packet.pubKey p.1 ∈ body :=
        groupPackets_subkey_mem body p.1 p.2 (by rw [← Prod.mk.eta (p := p)] at hpm; exact hpm)
      refine ⟨?_, hb2, ?_, ?_⟩
      · rw [hpub]; exact hbody p.1 hmem
      · rw [hpub]; exact hb3
      · rw [hpub]; exact hb4

/-- Every entity returned by readKeyRing is well-formed. -/
theorem readKeyRing_wf (ops : CryptoOps) (pkts : List Packet) (es : List Entity)
    (h : readKeyRing ops pkts = Except.ok es) : ∀ e ∈ es, EntityWF ops e := by
  suffices key : ∀ (N : Nat) (ps : List Packet) (es2 : List Entity), ps.length ≤ N →
      readKeyRing ops ps = Except.ok es2 → ∀ e ∈ es2, EntityWF ops e by
    exact key pkts.length pkts es le_rfl h
  intro N
  induction N with
  | zero =>
    intro ps es2 hlen h2 e he
    have : ps = [] := List.length_eq_zero.1 (Nat.le_zero.1 hlen)
    subst this
    rw [readKeyRing] at h2
    have := Except.ok.inj h2
    subst this
    simp at he
  | succ N ih =>
    intro ps es2 hlen h2 e he
    cases ps with
    | nil =>
      rw [readKeyRing] at h2
      have := Except.ok.inj h2
      subst this
      simp at he
    | cons p rest =>
      cases p with
      | marker =>
        rw [readKeyRing] at h2
        exact ih rest es2 (by simp at hlen; omega) h2 e he
      | trust =>
        rw [readKeyRing] at h2
        exact ih rest es2 (by simp at hlen; omega) h2 e he
      | userId n =>
        rw [readKeyRing] at h2
        exact Except.noConfusion h2
      | sig s =>
        rw [readKeyRing] at h2
        exact Except.noConfusion h2
      | pubKey q =>
        rw [readKeyRing] at h2
        split at h2
        · exact Except.noConfusion h2
        · rename_i hq
          have hqf : q.isSubkey = false := by
            cases hb : q.isSubkey
            · rfl
            · exact absurd hb hq
          split at h2
          · exact Except.noConfusion h2
          · rename_i ent hent
            split at h2
            · exact Except.noConfusion h2
            · rename_i es3 hes3
              have := Except.ok.inj h2
              subst this
              rcases List.mem_cons.1 he with he1 | he2
              · subst he1
                exact makeEntity_wf ops q (splitEntityBody rest).1 e hqf
                  (splitEntityBody_pubKey_mem rest) hent
              · have hlen2 : (splitEntityBody rest).2.length ≤ N := by
                  have h3 := splitEntityBody_length_le rest
                  simp at hlen
                  omega
                exact ih (splitEntityBody rest).2 es3 hlen2 hes3 e he2

/-- The signatures serialized with an identity, in order: chosen
self-signature, third-party certifications, optional revocation. -/
def identitySigList (id : Identity) : List Sig :=
  id.selfSignature :: (id.signatures ++
    (match id.revocation with
     | some r => [r]
     | none => []))

/-- The signatures serialized with a subkey. -/
def subkeySigList (sk : Subkey) : List Sig :=
  sk.sig :: (match sk.revocation with
             | some r => [r]
             | none => [])

theorem serializeIdentity_eq (id : Identity) :
    serializeIdentity id
      = Packet.userId id.name :: List.map Packet.sig (identitySigList id) := by
  cases hr : id.revocation <;> simp [serializeIdentity, identitySigList, hr]

theorem serializeSubkey_eq (sk : Subkey) :
    serializeSubkey sk
      = Packet.pubKey sk.publicKey :: List.map Packet.sig (subkeySigList sk) := by
  cases hr : sk.revocation <;> simp [serializeSubkey, subkeySigList, hr]

theorem takeSigs_map_append (ss : List Sig) (rest : List Packet) :
    takeSigs (List.map Packet.sig ss ++ rest)
      = (ss ++ (takeSigs rest).1, (takeSigs rest).2) := by
  induction ss with
  | nil => simp
  | cons s ss ih => simp [takeSigs, ih]

/-- Streams that do not begin with a signature packet. -/
def headNotSig : List Packet → Prop
  | Packet.sig _ :: _ => False
  | _ => True

theorem takeSigs_self (ps : List Packet) (h : headNotSig ps) :
    takeSigs ps = ([], ps) := by
  cases ps with
  | nil => rfl
  | cons p rest =>
    cases p with
    | sig s => exact absurd h (by simp [headNotSig])
    | pubKey pk => rfl
    | userId n => rfl
    | marker => rfl
    | trust => rfl

theorem beq_false_of_bne_true {α : Type} [BEq α] {a b : α} (h : (a != b) = true) :
    (a == b) = false := by
  simpa [bne] using h

/-- Grouping a serialized user-id segment followed by a non-signature
continuation. -/
theorem groupPackets_uid_seg (n : String) (ss : List Sig) (rest : List Packet)
    (hrest : headNotSig rest)
    (hss : ∀ s ∈ ss, (s.sigType != SigType.keyRevocation) = true) :
    groupPackets (Packet.userId n :: (List.map Packet.sig ss ++ rest))
      = ((n, ss) :: (groupPackets rest).1, (groupPackets rest).2.1,
         (groupPackets rest).2.2) := by
  have h1 : List.filter (fun s => s.sigType != SigType.keyRevocation) ss = ss :=
    List.filter_eq_self.2 hss
  have h2 : List.filter (fun s => s.sigType == SigType.keyRevocation) ss = [] := by
    rw [List.filter_eq_nil_iff]
    intro s hs
    simp [beq_false_of_bne_true (hss s hs)]
  rw [groupPackets]
  simp only [takeSigs_map_append, takeSigs_self rest hrest, List.append_nil, h1, h2,
    List.nil_append]

/-- Grouping a serialized subkey segment followed by a non-signature
continuation. -/
theorem groupPackets_sub_seg (pk : PubKey) (ss : List Sig) (rest : List Packet)
    (hrest : headNotSig rest)
    (hss : ∀ s ∈ ss, (s.sigType != SigType.keyRevocation) = true) :
    groupPackets (Packet.pubKey pk :: (List.map Packet.sig ss ++ rest))
      = ((groupPackets rest).1, (pk, ss) :: (groupPackets rest).2.1,
         (groupPackets rest).2.2) := by
  have h1 : List.filter (fun s => s.sigType != SigType.keyRevocation) ss = ss :=
    List.filter_eq_self.2 hss
  have h2 : List.filter (fun s => s.sigType == SigType.keyRevocation) ss = [] := by
    rw [List.filter_eq_nil_iff]
    intro s hs
    simp [beq_false_of_bne_true (hss s hs)]
  rw [groupPackets]
  simp only [takeSigs_map_append, takeSigs_self rest hrest, List.append_nil, h1, h2,
    List.nil_append]

theorem headNotSig_serializedSubs (subs : List Subkey) :
    headNotSig (List.map serializeSubkey subs).flatten := by
  cases subs with
  | nil => simp [headNotSig]
  | cons sk subs => simp [serializeSubkey_eq, headNotSig]

theorem headNotSig_serializedBody (ids : List Identity) (subs : List Subkey) :
    headNotSig ((List.map serializeIdentity ids).flatten
      ++ (List.map serializeSubkey subs).flatten) := by
  cases ids with
  | nil =>
    simp only [List.map_nil, List.flatten_nil, List.nil_append]
    exact headNotSig_serializedSubs subs
  | cons id ids => simp [serializeIdentity_eq, headNotSig]

/-- Grouping the serialized body of an entity recovers exactly the
per-identity and per-subkey signature segments, with no key-level
signatures. -/
theorem groupPackets_serialized (ids : List Identity) (subs : List Subkey)
    (hids : ∀ id ∈ ids, ∀ s ∈ identitySigList id,
      (s.sigType != SigType.keyRevocation) = true)
    (hsubs : ∀ sk ∈ subs, ∀ s ∈ subkeySigList sk,
      (s.sigType != SigType.keyRevocation) = true) :
    groupPackets ((List.map serializeIdentity ids).flatten
        ++ (List.map serializeSubkey subs).flatten)
      = (ids.map (fun id => (id.name, identitySigList id)),
         subs.map (fun sk => (sk.publicKey, subkeySigList sk)), []) := by
  induction ids with
  | nil =>
    simp only [List.map_nil, List.flatten_nil, List.nil_append]
    induction subs with
    | nil => simp [groupPackets]
    | cons sk subs ihs =>
      simp only [List.map_cons, List.flatten_cons]
      rw [serializeSubkey_eq, List.cons_append]
      rw [groupPackets_sub_seg sk.publicKey (subkeySigList sk)
        (List.map serializeSubkey subs).flatten (headNotSig_serializedSubs subs)
        (hsubs sk (List.mem_cons_self sk subs))]
      rw [ihs (fun x hx => hsubs x (List.mem_cons_of_mem sk hx))]
  | cons id ids ih =>
    simp only [List.map_cons, List.flatten_cons, List.append_assoc]
    rw [serializeIdentity_eq, List.cons_append]
    rw [groupPackets_uid_seg id.name (identitySigList id)
      ((List.map serializeIdentity ids).flatten ++ (List.map serializeSubkey subs).flatten)
      (headNotSig_serializedBody ids subs)
      (hids id (List.mem_cons_self id ids))]
    rw [ih (fun x hx => hids x (List.mem_cons_of_mem id hx))]

theorem foldSelf_stays (ops : CryptoOps) (primary : PubKey) (n : String)
    (rest : List Sig) (s : Sig)
    (hrest : ∀ x ∈ rest, isSelfCert ops primary n x = false) :
    rest.foldl (fun acc t => if isSelfCert ops primary n t then pickLatest acc t else acc)
      (some s) = some s := by
  induction rest with
  | nil => rfl
  | cons x rest ih =>
    simp only [List.foldl_cons, hrest x (List.mem_cons_self x rest), Bool.false_eq_true,
      if_false]
    exact ih (fun y hy => hrest y (List.mem_cons_of_mem x hy))

theorem find?_append_left_none {α : Type} (p : α → Bool) (l1 l2 : List α)
    (h : ∀ x ∈ l1, p x = false) :
    List.find? p (l1 ++ l2) = List.find? p l2 := by
  induction l1 with
  | nil => rfl
  | cons x l1 ih =>
    rw [List.cons_append, List.find?_cons]
    rw [h x (List.mem_cons_self x l1)]
    exact ih (fun y hy => h y (List.mem_cons_of_mem x hy))

/-- A well-formed identity is reassembled unchanged from its serialized
signature segment. -/
theorem buildIdentity_serialized (ops : CryptoOps) (primary : PubKey) (id : Identity)
    (hwf : IdentityWF ops primary id) :
    buildIdentity ops primary id.name (identitySigList id) = some id := by
  obtain ⟨hself, hsigs, hrev⟩ := hwf
  obtain ⟨htS, hiS, _⟩ := isSelfCert_spec ops primary id.name id.selfSignature hself
  obtain ⟨_, _, _, hcrS⟩ := selfCertType_ne _ htS
  have hthird : ∀ x ∈ id.signatures, isSelfCert ops primary id.name x = false := by
    intro x hx
    have hb := beq_false_of_bne_true (hsigs x hx).2
    unfold isSelfCert
    rw [hb]
    simp
  have hthirdRev : ∀ x ∈ id.signatures, (x.sigType == SigType.certRevocation) = false := by
    intro x hx
    obtain ⟨_, _, _, h4⟩ := selfCertType_ne x.sigType (hsigs x hx).1
    exact h4
  have hrevtail : ∀ x ∈ (match id.revocation with
      | some r => [r]
      | none => ([] : List Sig)), isSelfCert ops primary id.name x = false := by
    intro x hx
    cases hr : id.revocation with
    | none => rw [hr] at hx; simp at hx
    | some r =>
      rw [hr] at hx
      simp only [List.mem_singleton] at hx
      subst hx
      obtain ⟨hrt, _, _⟩ := hrev x hr
      unfold isSelfCert
      rw [hrt]
      simp [isSelfCertType]
  have hsel : selectSelfSig ops primary id.name (identitySigList id)
      = some id.selfSignature := by
    unfold selectSelfSig identitySigList
    rw [List.foldl_cons]
    have hpl : pickLatest none id.selfSignature = some id.selfSignature := rfl
    simp only [hself, if_true, hpl]
    rw [List.foldl_append]
    rw [foldSelf_stays ops primary id.name id.signatures id.selfSignature hthird]
    exact foldSelf_stays ops primary id.name _ id.selfSignature hrevtail
  have hfilter : List.filter
      (fun s => isSelfCertType s.sigType && s.issuerKeyId != some primary.keyId)
      (identitySigList id) = id.signatures := by
    unfold identitySigList
    rw [List.filter_cons]
    have hpredS : (isSelfCertType id.selfSignature.sigType &&
        id.selfSignature.issuerKeyId != some primary.keyId) = false := by
      rw [hiS]
      simp
    rw [hpredS]
    simp only [Bool.false_eq_true, if_false]
    rw [List.filter_append]
    have hf1 : List.filter
        (fun s => isSelfCertType s.sigType && s.issuerKeyId != some primary.keyId)
        id.signatures = id.signatures := by
      apply List.filter_eq_self.2
      intro s hs
      rw [(hsigs s hs).1, (hsigs s hs).2]
      rfl
    have hf2 : List.filter
        (fun s => isSelfCertType s.sigType && s.issuerKeyId != some primary.keyId)
        (match id.revocation with
         | some r => [r]
         | none => ([] : List Sig)) = [] := by
      cases hr : id.revocation with
      | none => rfl
      | some r =>
        obtain ⟨hrt, _, _⟩ := hrev r hr
        simp [List.filter, hrt, isSelfCertType]
    rw [hf1, hf2, List.append_nil]
  have hfind : List.find?
      (fun s => s.sigType == SigType.certRevocation &&
        s.issuerKeyId == some primary.keyId && ops.verifyUserIdSig primary id.name s)
      (identitySigList id) = id.revocation := by
    unfold identitySigList
    rw [List.find?_cons]
    have hpS : (id.selfSignature.sigType == SigType.certRevocation &&
        id.selfSignature.issuerKeyId == some primary.keyId &&
        ops.verifyUserIdSig primary id.name id.selfSignature) = false := by
      rw [hcrS]
      rfl
    rw [hpS]
    rw [find?_append_left_none _ id.signatures _ ?side]
    case side =>
      intro x hx
      rw [hthirdRev x hx]
      rfl
    cases hr : id.revocation with
    | none => rfl
    | some r =>
      obtain ⟨hrt, hri, hrv⟩ := hrev r hr
      rw [List.find?_cons]
      have : (r.sigType == SigType.certRevocation &&
          r.issuerKeyId == some primary.keyId &&
          ops.verifyUserIdSig primary id.name r) = true := by
        rw [hrt, hri, hrv]
        simp
      rw [this]
  unfold buildIdentity
  rw [hsel]
  simp only [Option.some.injEq]
  rw [hfilter, hfind]

/-- A well-formed subkey is reassembled unchanged from its serialized
signature segment. -/
theorem buildSubkey_serialized (ops : CryptoOps) (primary : PubKey) (sk : Subkey)
    (hwf : SubkeyWF ops primary sk) :
    buildSubkey ops primary sk.publicKey (subkeySigList sk) = Sum.inr sk := by
  obtain ⟨hsub, hbt, hchk, hrev⟩ := hwf
  have hstep1 : subkeyStep ops primary sk.publicKey ⟨none, none, none⟩ sk.sig
      = ⟨some sk.sig, none, none⟩ := by
    unfold subkeyStep
    rw [hbt]
    simp [hchk]
  unfold buildSubkey subkeySigList
  cases hr : sk.revocation with
  | none =>
    rw [List.foldl_cons, hstep1, List.foldl_nil]
    simp only [Sum.inr.injEq]
    rw [show sk = { publicKey := sk.publicKey, sig := sk.sig, revocation := sk.revocation }
      from rfl]
    rw [hr]
  | some r =>
    obtain ⟨hrt, hrv2⟩ := hrev r hr
    have hstep2 : subkeyStep ops primary sk.publicKey ⟨some sk.sig, none, none⟩ r
        = ⟨some sk.sig, some r, none⟩ := by
      unfold subkeyStep
      rw [hrt]
      simp [hrv2]
    rw [List.foldl_cons, hstep1, List.foldl_cons, hstep2, List.foldl_nil]
    simp only [Sum.inr.injEq]
    rw [show sk = { publicKey := sk.publicKey, sig := sk.sig, revocation := sk.revocation }
      from rfl]
    rw [hr]

theorem splitEntityBody_all (ps : List Packet)
    (h : ∀ q, Packet.pubKey q ∈ ps → q.isSubkey = true) :
    splitEntityBody ps = (ps, []) := by
  induction ps with
  | nil => rfl
  | cons p rest ih =>
    have hrest : ∀ q, Packet.pubKey q ∈ rest → q.isSubkey = true :=
      fun q hq => h q (List.mem_cons_of_mem p hq)
    cases p with
    | pubKey pk =>
      have hpk := h pk (List.mem_cons_self _ _)
      rw [splitEntityBody]
      simp [hpk, ih hrest]
    | userId n => rw [splitEntityBody]; simp [ih hrest]
    | sig s => rw [splitEntityBody]; simp [ih hrest]
    | marker => rw [splitEntityBody]; simp [ih hrest]
    | trust => rw [splitEntityBody]; simp [ih hrest]

/-- Key packets in a serialized entity body come only from its
subkeys. -/
theorem serializedBody_pubKeys (e : Entity) :
    ∀ q, Packet.pubKey q ∈ (List.map serializeIdentity e.identities).flatten
        ++ (List.map serializeSubkey e.subkeys).flatten →
      ∃ sk ∈ e.subkeys, q = sk.publicKey := by
  intro q hq
  rcases List.mem_append.1 hq with h1 | h2
  · exfalso
    obtain ⟨l, hl, hql⟩ := List.mem_flatten.1 h1
    obtain ⟨id, hid, rfl⟩ := List.mem_map.1 hl
    rw [serializeIdentity_eq] at hql
    rcases List.mem_cons.1 hql with he | hm
    · exact Packet.noConfusion he
    · obtain ⟨s, _, he⟩ := List.mem_map.1 hm
      exact Packet.noConfusion he
  · obtain ⟨l, hl, hql⟩ := List.mem_flatten.1 h2
    obtain ⟨sk, hsk, rfl⟩ := List.mem_map.1 hl
    rw [serializeSubkey_eq] at hql
    rcases List.mem_cons.1 hql with he | hm
    · refine ⟨sk, hsk, ?_⟩
      injection he with h3
    · obtain ⟨s, _, he⟩ := List.mem_map.1 hm
      exact Packet.noConfusion he

theorem filterMap_buildIdentity (ops : CryptoOps) (primary : PubKey)
    (ids : List Identity)
    (h : ∀ id ∈ ids, buildIdentity ops primary id.name (identitySigList id) = some id) :
    List.filterMap (fun p => buildIdentity ops primary p.1 p.2)
      (ids.map (fun id => (id.name, identitySigList id))) = ids := by
  induction ids with
  | nil => rfl
  | cons id ids ih =>
    simp only [List.map_cons, List.filterMap_cons]
    rw [h id (List.mem_cons_self id ids)]
    rw [ih (fun x hx => h x (List.mem_cons_of_mem id hx))]

theorem subkeys_reconstructed (ops : CryptoOps) (primary : PubKey) (subs : List Subkey)
    (h : ∀ sk ∈ subs, buildSubkey ops primary sk.publicKey (subkeySigList sk)
      = Sum.inr sk) :
    goodSubkeys (List.map (fun p => buildSubkey ops primary p.1 p.2)
        (subs.map (fun sk => (sk.publicKey, subkeySigList sk)))) = subs ∧
      badSubkeysOf (List.map (fun p => buildSubkey ops primary p.1 p.2)
        (subs.map (fun sk => (sk.publicKey, subkeySigList sk)))) = [] := by
  induction subs with
  | nil => exact ⟨rfl, rfl⟩
  | cons sk subs ih =>
    obtain ⟨ih1, ih2⟩ := ih (fun x hx => h x (List.mem_cons_of_mem sk hx))
    constructor
    · simp only [List.map_cons]
      unfold goodSubkeys
      rw [List.filterMap_cons]
      rw [h sk (List.mem_cons_self sk subs)]
      simp only
      unfold goodSubkeys at ih1
      rw [ih1]
    · simp only [List.map_cons]
      unfold badSubkeysOf
      rw [List.filterMap_cons]
      rw [h sk (List.mem_cons_self sk subs)]
      simp only
      unfold badSubkeysOf at ih2
      rw [ih2]

/-- Serializing a well-formed entity and reading the result back gives
exactly one entity, identical in primary key, identities and
subkeys (key-level revocation lists are not serialized). -/
theorem serialize_parse_wf (ops : CryptoOps) (e : Entity) (hwf : EntityWF ops e) :
    readKeyRing ops (serializeEntity e)
      = Except.ok [{ primaryKey := e.primaryKey, identities := e.identities
                     subkeys := e.subkeys, revocations := [], unverifiedRevocations := []
                     badSubkeys := [] }] := by
  obtain ⟨hpk, hne, hids, hsks⟩ := hwf
  have hidsigs : ∀ id ∈ e.identities, ∀ s ∈ identitySigList id,
      (s.sigType != SigType.keyRevocation) = true := by
    intro id hid s hs
    obtain ⟨hself, hsigs, hrev⟩ := hids id hid
    unfold identitySigList at hs
    rcases List.mem_cons.1 hs with he | hm
    · rw [he]
      obtain ⟨htS, _, _⟩ := isSelfCert_spec ops e.primaryKey id.name id.selfSignature hself
      exact (selfCertType_ne _ htS).1
    · rcases List.mem_append.1 hm with h3 | h4
      · exact (selfCertType_ne s.sigType (hsigs s h3).1).1
      · cases hr : id.revocation with
        | none => rw [hr] at h4; simp at h4
        | some r =>
          rw [hr] at h4
          simp only [List.mem_singleton] at h4
          rw [h4, (hrev r hr).1]
          decide
  have hsksigs : ∀ sk ∈ e.subkeys, ∀ s ∈ subkeySigList sk,
      (s.sigType != SigType.keyRevocation) = true := by
    intro sk hsk s hs
    obtain ⟨_, hbt, _, hrev⟩ := hsks sk hsk
    unfold subkeySigList at hs
    rcases List.mem_cons.1 hs with he | hm
    · subst he
      rw [hbt]
      decide
    · cases hr : sk.revocation with
      | none => rw [hr] at hm; simp at hm
      | some r =>
        rw [hr] at hm
        simp only [List.mem_singleton] at hm
        rw [hm, (hrev r hr).1]
        decide
  have hgroup := groupPackets_serialized e.identities e.subkeys hidsigs hsksigs
  have hsplit := splitEntityBody_all
    ((List.map serializeIdentity e.identities).flatten
      ++ (List.map serializeSubkey e.subkeys).flatten)
    (by
      intro q hq
      obtain ⟨sk, hsk, rfl⟩ := serializedBody_pubKeys e q hq
      exact (hsks sk hsk).1)
  have hfm := filterMap_buildIdentity ops e.primaryKey e.identities
    (fun id hid => buildIdentity_serialized ops e.primaryKey id (hids id hid))
  obtain ⟨hgood, hbad⟩ := subkeys_reconstructed ops e.primaryKey e.subkeys
    (fun sk hsk => buildSubkey_serialized ops e.primaryKey sk (hsks sk hsk))
  have hempty : e.identities.isEmpty = false := by
    cases hl : e.identities with
    | nil => exact absurd hl hne
    | cons a l => rfl
  unfold serializeEntity
  rw [readKeyRing]
  rw [hpk]
  simp only [Bool.false_eq_true, if_false]
  rw [hsplit]
  simp only
  rw [makeEntity, hgroup]
  simp only [hfm, hempty, Bool.false_eq_true, if_false, hgood, hbad]
  rw [readKeyRing]
  rfl

/-- C5: for every entity obtained by parsing a key stream, serializing
it and parsing the result yields exactly one entity that agrees with
the original in primary-key fingerprint and key id, identity set
(names, chosen self-signature creation times, in fact the whole
identity records), and subkey fingerprints (in fact the whole subkey
records). -/
theorem parse_serialize_roundtrip (ops : CryptoOps) (pkts : List Packet)
    (es : List Entity) (e : Entity)
    (hparse : readKeyRing ops pkts = Except.ok es) (he : e ∈ es) :
    ∃ e2, readKeyRing ops (serializeEntity e) = Except.ok [e2] ∧
      e2.primaryKey.fingerprint = e.primaryKey.fingerprint ∧
      e2.primaryKey.keyId = e.primaryKey.keyId ∧
      e2.identities.map Identity.name = e.identities.map Identity.name ∧
      e2.identities.map (fun i => i.selfSignature.creationTime)
        = e.identities.map (fun i => i.selfSignature.creationTime) ∧
      e2.subkeys.map (fun sk => sk.publicKey.fingerprint)
        = e.subkeys.map (fun sk => sk.publicKey.fingerprint) ∧
      e2.identities = e.identities ∧ e2.subkeys = e.subkeys := by
  have hwf := readKeyRing_wf ops pkts es hparse e he
  exact ⟨_, serialize_parse_wf ops e hwf, rfl, rfl, rfl, rfl, rfl, rfl, rfl⟩

/-- Witness for C5: parse a concrete one-identity key stream, then
serialize and reparse the entity obtained from it. -/
theorem parse_serialize_roundtrip_app :
    ∃ e2, readKeyRing opsAll (serializeEntity entPrimary) = Except.ok [e2] ∧
      e2.primaryKey.fingerprint = entPrimary.primaryKey.fingerprint ∧
      e2.primaryKey.keyId = entPrimary.primaryKey.keyId ∧
      e2.identities.map Identity.name = entPrimary.identities.map Identity.name ∧
      e2.identities.map (fun i => i.selfSignature.creationTime)
        = entPrimary.identities.map (fun i => i.selfSignature.creationTime) ∧
      e2.subkeys.map (fun sk => sk.publicKey.fingerprint)
        = entPrimary.subkeys.map (fun sk => sk.publicKey.fingerprint) ∧
      e2.identities = entPrimary.identities ∧ e2.subkeys = entPrimary.subkeys := by
  apply parse_serialize_roundtrip opsAll
    [Packet.pubKey pkPrimary, Packet.userId "a", Packet.sig sigSelfCert] [entPrimary]
    entPrimary ?hp (List.mem_singleton.2 rfl)
  case hp =>
    have d1 : (SigType.positiveCert != SigType.keyRevocation) = true := by decide
    have d2 : (SigType.positiveCert == SigType.keyRevocation) = false := by decide
    have d5 : (SigType.positiveCert == SigType.certRevocation) = false := by decide
    unfold readKeyRing
    simp only [pkPrimary, Bool.false_eq_true, if_false]
    rw [makeEntity]
    simp [splitEntityBody, groupPackets, takeSigs, buildIdentity, selectSelfSig,
      isSelfCert, isSelfCertType, pickLatest, classifyKeyLevel, sigSelfCert,
      opsAll, pkPrimary, entPrimary, List.filter, List.find?, goodSubkeys, badSubkeysOf,
      readKeyRing, d1, d2, d5]

end GoCrypto
